import Mathlib

/-!
Interactive robot face: command framing, decoding, dispatch and animation.

A shallow embedding of the command pipeline (`src/core/main.cpp`) and of the
animation engine (`src/emotions/emotions.cpp`).

Conventions of the embedding:

* a C++ `char` is a natural number (its byte value), a `std::string` is a list
  of bytes;
* `uint32_t` values are natural numbers, every operation that can leave the
  range `[0, 2^32)` is reduced modulo `2^32` explicitly;
* `std::map<std::string, std::string>` is an association list kept in the
  key order of `std::map` (bytewise lexicographic), with unique keys;
* `static` and global variables become fields of explicit state records;
* the hardware (serial input, clock, `rand()`, display) is passed in as data:
  the bytes that are available, the clock readings, the random values, and the
  list of draw calls that a function issues.
-/

namespace PicoRobot

set_option maxRecDepth 100000
set_option maxHeartbeats 1000000

/-! ## Bytes and strings -/

/-- A C++ `std::string`: the list of its bytes. -/
abbrev CppString := List Nat

/-- The bytes of an ASCII literal. -/
def ascii (s : String) : CppString := s.toList.map Char.toNat

abbrev CH_TAB : Nat := 9
abbrev CH_LF : Nat := 10
abbrev CH_CR : Nat := 13
abbrev CH_SPACE : Nat := 32
abbrev CH_DQUOTE : Nat := 34
abbrev CH_SQUOTE : Nat := 39
abbrev CH_COMMA : Nat := 44
abbrev CH_COLON : Nat := 58
abbrev CH_LBRACE : Nat := 123
abbrev CH_RBRACE : Nat := 125

/-! ## `std::map<std::string, std::string>` -/

/-- The order of `std::less<std::string>`: bytewise lexicographic. -/
def str_lt : CppString → CppString → Bool
  | [], [] => false
  | [], _ :: _ => true
  | _ :: _, [] => false
  | a :: as, b :: bs => if a < b then true else if b < a then false else str_lt as bs

/-- A `std::map<std::string, std::string>`, as its sequence of entries in iteration order. -/
abbrev StrMap := List (CppString × CppString)

/-- The assignment `m[k] = v`: overwrite the entry of `k`, or insert it at its place. -/
def map_assign : StrMap → CppString → CppString → StrMap
  | [], k, v => [(k, v)]
  | (k1, v1) :: rest, k, v =>
    if k = k1 then (k, v) :: rest
    else if str_lt k k1 then (k, v) :: (k1, v1) :: rest
    else (k1, v1) :: map_assign rest k v

/-- The lookup `m.find(k)`: the value, or `none` for `m.end()`. -/
def map_find : StrMap → CppString → Option CppString
  | [], _ => none
  | (k1, v1) :: rest, k => if k = k1 then some v1 else map_find rest k

/-! ## CommandDecoder: `parse_json` (main.cpp, lines 98-161) -/

/-- The local variables of `parse_json`. -/
structure ParseState where
  result : StrMap
  key : CppString
  value : CppString
  in_key : Bool
  in_value : Bool
  in_string : Bool
  quote_char : Nat
  deriving DecidableEq, Repr

/-- The locals of `parse_json` before the scan. -/
def parse_init : ParseState :=
  { result := [], key := [], value := [], in_key := false, in_value := false,
    in_string := false, quote_char := 0 }

/-- The flush `if (!key.empty() && !value.empty()) { result[key] = value; key.clear(); value.clear(); }`. -/
def parse_flush (s : ParseState) : ParseState :=
  if s.key ≠ [] ∧ s.value ≠ [] then
    { s with result := map_assign s.result s.key s.value, key := [], value := [] }
  else s

/-- The append `if (in_key) key += c; else if (in_value) value += c;`. -/
def parse_append (s : ParseState) (c : Nat) : ParseState :=
  if s.in_key = true then { s with key := s.key ++ [c] }
  else if s.in_value = true then { s with value := s.value ++ [c] }
  else s

/-- One iteration of the scan loop of `parse_json`, for the character `c`. -/
def parse_step (s : ParseState) (c : Nat) : ParseState :=
  if s.in_string = false ∧ (c = CH_LBRACE ∨ c = CH_RBRACE ∨ c = CH_COMMA ∨ c = CH_COLON) then
    let s1 := parse_flush s
    if c = CH_COLON then { s1 with in_value := true, in_key := false }
    else if c = CH_COMMA then { s1 with in_key := true, in_value := false }
    else if c = CH_LBRACE then { s1 with in_key := true }
    else s1
  else if (c = CH_DQUOTE ∨ c = CH_SQUOTE) ∧ (s.in_string = false ∨ s.quote_char = c) then
    let ins := !s.in_string
    { s with in_string := ins, quote_char := if ins = true then c else 0 }
  else if s.in_string = true then parse_append s c
  else if c ≠ CH_SPACE ∧ c ≠ CH_TAB ∧ c ≠ CH_LF ∧ c ≠ CH_CR then parse_append s c
  else s

/-- The scan loop of `parse_json` from the state `s`. -/
def parse_scan (s : ParseState) (json_str : CppString) : ParseState :=
  json_str.foldl parse_step s

/-- The function `parse_json`: scan, then flush the last pair. -/
def parse_json (json_str : CppString) : StrMap :=
  (parse_flush (parse_scan parse_init json_str)).result

/-! ## StreamFramer: `read_command` (main.cpp, lines 164-242) -/

/-- The `static` locals of `read_command`. -/
structure FramerState where
  buffer : CppString
  in_json : Bool
  brace_count : Int
  deriving DecidableEq, Repr

/-- The initial values of the statics, also the values after every reset
(`buffer.clear(); in_json = false; brace_count = 0;`). -/
def framer_reset : FramerState := { buffer := [], in_json := false, brace_count := 0 }

/-- The test `in_json && brace_count == 0 && !buffer.empty()`. -/
def framer_complete (s : FramerState) : Bool :=
  s.in_json && decide (s.brace_count = 0) && decide (s.buffer ≠ [])

/-- What one iteration of the `while (true)` loop does with a received byte:
go on with new statics, or return a command (the statics are then reset). -/
inductive ByteOutcome where
  | go (s : FramerState)
  | ret (cmd : CppString)
  deriving DecidableEq, Repr

/-- The body of the `while (true)` loop of `read_command` for the received byte `c`
(lines 176-228). -/
def read_command_byte (s : FramerState) (c : Nat) : ByteOutcome :=
  if c = CH_CR then .go s
  else if c = CH_LF then
    if framer_complete s = true then .ret s.buffer
    else if s.buffer ≠ [] then .go framer_reset
    else .go s
  else
    let s1 : FramerState := { s with buffer := s.buffer ++ [c] }
    let s2 : FramerState :=
      if c = CH_LBRACE then
        if s1.in_json = false then { s1 with in_json := true, brace_count := 1 }
        else { s1 with brace_count := s1.brace_count + 1 }
      else if c = CH_RBRACE ∧ s1.in_json = true then { s1 with brace_count := s1.brace_count - 1 }
      else s1
    if s2.buffer.length > 2048 then .go framer_reset else .go s2

/-- One call of `read_command`. The list argument holds the bytes that
`getchar_timeout_us` delivers before its first timeout. The result is the returned string (empty: no command), the
statics after the call, and the bytes left unread in the input queue. -/
def read_command : FramerState → List Nat → CppString × FramerState × List Nat
  | s, [] =>
    if framer_complete s = true then (s.buffer, framer_reset, []) else ([], s, [])
  | s, c :: rest =>
    match read_command_byte s c with
    | .ret cmd => (cmd, framer_reset, rest)
    | .go s1 => read_command s1 rest

/-- The statics after the loop body has processed all of `bytes` without returning;
`none` when one of the bytes made `read_command` return. -/
def framer_run : FramerState → List Nat → Option FramerState
  | s, [] => some s
  | s, c :: rest =>
    match read_command_byte s c with
    | .ret _ => none
    | .go s1 => framer_run s1 rest

/-- Successive polls. Each item of `arrivals` is what reaches the input queue before
the corresponding call; unread bytes stay queued for the next call. The result lists
the string returned by each call. -/
def poll_run : FramerState → List Nat → List (List Nat) → List CppString
  | _, _, [] => []
  | s, queue, batch :: later =>
    match read_command s (queue ++ batch) with
    | (cmd, s1, rest) => cmd :: poll_run s1 rest later

/-! ## 32-bit unsigned arithmetic -/

/-- The modulus of `uint32_t`. -/
abbrev U32 : Nat := 4294967296

/-- The sum `a + b` in `uint32_t`. -/
def u32_add (a b : Nat) : Nat := (a + b) % U32

/-- The difference `a - b` in `uint32_t`, for `b` below `2^32`. -/
def u32_sub (a b : Nat) : Nat := (a + U32 - b) % U32

/-- The product `a * b` in `uint32_t`. -/
def u32_mul (a b : Nat) : Nat := (a * b) % U32

/-! ## Syllable count: `count_syllables` (emotions.cpp, lines 236-244) -/

/-- The characters of the literal `VOWELS` (emotions.h, line 21): ten Cyrillic vowels in
UTF-8, two bytes each, then `aeiouy`. The terminating NUL is not listed. -/
def VOWELS : CppString :=
  [208, 176, 208, 181, 209, 145, 208, 184, 208, 190, 209, 131, 209, 139, 209, 141,
   209, 142, 209, 143, 97, 101, 105, 111, 117, 121]

/-- The function `tolower` of the C locale on a byte: `A`..`Z` go to `a`..`z`. -/
def tolower (c : Nat) : Nat := if 65 ≤ c ∧ c ≤ 90 then c + 32 else c

/-- Whether `strchr(s, c)` is non-null for the NUL-terminated literal with characters `s`.
The terminating NUL counts as part of the string (C standard, `strchr`), so `c = 0` is
always found. -/
def strchr_found (s : CppString) (c : Nat) : Bool := decide (c ∈ s) || decide (c = 0)

/-- The function `count_syllables`: the loop over the bytes of `text`, then
`count > 0 ? count : 1`. -/
def count_syllables (text : CppString) : Nat :=
  let count := text.foldl (fun n c => if strchr_found VOWELS (tolower c) = true then n + 1 else n) 0
  if count > 0 then count else 1

/-- Whether a byte matches the fixed vowel set case-insensitively: its lower-case form is
one of the characters of `VOWELS`. This follows the wording of the specification. -/
def matches_vowel_set (c : Nat) : Bool := decide (tolower c ∈ VOWELS)

/-- The syllable count in the words of the specification:
`max(1, count of characters in text matching a fixed vowel set)`. -/
def count_syllables_spec (text : CppString) : Nat :=
  max 1 (text.countP matches_vowel_set)

/-! ## FrameScheduler: `anime_logic` (emotions.cpp, lines 382-452) -/

/-- The structure `AnimState` (states.h); `frame` is a `uint8_t`, the others `uint32_t`. -/
structure AnimState where
  animating : Bool
  frame : Nat
  start_time : Nat
  last_frame : Nat
  cycle_count : Nat
  deriving DecidableEq, Repr

/-- The state built by `get_anim_state` and `reset_anim_state` (states.cpp): the default
member initialisers. -/
def get_anim_state : AnimState :=
  { animating := false, frame := 0, start_time := 0, last_frame := 0, cycle_count := 0 }

/-- A call `draw_matrix(matrix, PIXEL_SIZE, force_redraw)`, over bitmaps of type `M`. -/
structure DrawCall (M : Type) where
  matrix : M
  force_redraw : Bool
  deriving DecidableEq, Repr

/-- The guarded call `if (matrix) draw_matrix(matrix, PIXEL_SIZE, force)`; a null
pointer is `none`. -/
def draw_if {M : Type} (matrix : Option M) (force : Bool) : List (DrawCall M) :=
  match matrix with
  | some m => [{ matrix := m, force_redraw := force }]
  | none => []

/-- The function `anime_logic`. `speed_ms` is the value of `(uint32_t)(speed * 1000)`,
`current_time` the reading of `to_ms_since_boot(get_absolute_time())`. The result is the
state after the call and the draw calls issued, in order. The quotient
`elapsed_time / (frame_duration * 2)` is the quotient of natural numbers, which is 0 for
the divisor 0; the C division is undefined there. -/
def anime_logic {M : Type} (state : AnimState) (speed_ms : Nat) (duration : Nat)
    (current_time : Nat)
    (matrix_start matrix_anim_a matrix_anim_b matrix_anim_c matrix_end : Option M) :
    AnimState × List (DrawCall M) :=
  if state.animating = false ∧ duration > 0 then
    ({ animating := true, start_time := current_time, last_frame := current_time,
       frame := 0, cycle_count := 0 },
     draw_if matrix_start true)
  else if state.animating = false ∧ duration ≤ 2 then
    (state, draw_if matrix_start false)
  else if state.animating = true ∧ duration > 2 then
    let elapsed_time := u32_sub current_time state.start_time
    let duration_ms := u32_mul duration 1000
    if elapsed_time < duration_ms then
      let frame_duration := if speed_ms < 100 then 100 else speed_ms
      if u32_sub current_time state.last_frame ≥ frame_duration then
        let frame := (state.frame + 1) % 4
        let current_matrix : Option M :=
          if frame = 0 then matrix_start
          else if frame = 1 then matrix_anim_a
          else if frame = 2 then matrix_anim_b
          else if frame = 3 then matrix_anim_c
          else none
        ({ state with frame := frame,
                      cycle_count := elapsed_time / u32_mul frame_duration 2,
                      last_frame := current_time },
         draw_if current_matrix false)
      else (state, [])
    else ({ state with animating := false }, draw_if matrix_end true)
  else (state, [])

/-- Repeated calls of `anime_logic` with the same arguments, one per clock reading:
the state after each call and the draw calls of each call. -/
def anime_calls {M : Type} (state : AnimState) (speed_ms : Nat) (duration : Nat)
    (matrix_start matrix_anim_a matrix_anim_b matrix_anim_c matrix_end : Option M) :
    List Nat → List (AnimState × List (DrawCall M))
  | [] => []
  | now :: later =>
    let r := anime_logic state speed_ms duration now
      matrix_start matrix_anim_a matrix_anim_b matrix_anim_c matrix_end
    r :: anime_calls r.1 speed_ms duration
      matrix_start matrix_anim_a matrix_anim_b matrix_anim_c matrix_end later

/-! ## Double precision

The cycle length of the speech animation is computed in `double`. The values that occur
there are positive, so a `double` is modelled by a numerator and a binary exponent, and
the operations by the IEEE 754 binary64 rule: the exact result, rounded to the nearest
value with a 53-bit significand, ties to even. Results outside the normal range
(overflow, subnormal, zero) are not modelled and give `none`. -/

/-- A positive finite `double`, the value `man * 2^exp`. -/
structure Dbl where
  man : Nat
  exp : Int
  deriving DecidableEq, Repr

/-- The exact value of a `Dbl`. -/
def Dbl.toRat (d : Dbl) : ℚ := (d.man : ℚ) * (2 : ℚ) ^ d.exp

/-- The position of the leading bit of `n`: `floor(log2 n)` for positive `n`. -/
def nat_log2 : Nat → Nat → Nat
  | 0, _ => 0
  | fuel + 1, n => if n < 2 then 0 else nat_log2 fuel (n / 2) + 1

/-- The `double` nearest to the positive rational `num / den` (round to nearest, ties to
even); `none` outside the normal range. -/
def round_binary64 (num den : Nat) : Option Dbl :=
  if num = 0 ∨ den = 0 then none
  else
    let e0 : Int := (nat_log2 num num : Int) - (nat_log2 den den : Int)
    let fits : Bool :=
      if 0 ≤ e0 then decide (den * 2 ^ e0.toNat ≤ num) else decide (den ≤ num * 2 ^ (-e0).toNat)
    let e : Int := if fits = true then e0 else e0 - 1
    let shift : Int := 52 - e
    let n : Nat := num * 2 ^ shift.toNat
    let d : Nat := den * 2 ^ (-shift).toNat
    let m0 : Nat := n / d
    let r : Nat := n % d
    let m : Nat :=
      if 2 * r < d then m0 else if d < 2 * r then m0 + 1
      else if m0 % 2 = 0 then m0 else m0 + 1
    if e < -1022 ∨ 1023 < e ∨ (e = 1023 ∧ m = 2 ^ 53) then none
    else some { man := m, exp := -shift }

/-- The quotient `a / b` in `double`. -/
def fdiv (a b : Dbl) : Option Dbl :=
  round_binary64 (a.man * 2 ^ (a.exp - b.exp).toNat) (b.man * 2 ^ (b.exp - a.exp).toNat)

/-- The product `a * b` in `double`. -/
def fmul (a b : Dbl) : Option Dbl :=
  round_binary64 (a.man * b.man * 2 ^ (a.exp + b.exp).toNat) (2 ^ (-(a.exp + b.exp)).toNat)

/-- The conversion `(uint32_t)d`: truncation; undefined (`none`) from `2^32` on. -/
def double_to_u32 (d : Dbl) : Option Nat :=
  let v : Nat := if 0 ≤ d.exp then d.man * 2 ^ d.exp.toNat else d.man / 2 ^ (-d.exp).toNat
  if v < U32 then some v else none

/-! ## AnimationSequencer: `setup_talking_animation` (emotions.cpp, lines 110-185) -/

/-- Lines 126-133: `syllables_per_second = 3.5`, `activity_factor = 1.0 / mouth_speed`,
`syllables_per_second *= activity_factor`, and the conversion
`(uint32_t)(1000.0 / syllables_per_second)`. -/
def cycle_raw (mouth_speed : Dbl) : Option Nat :=
  match fdiv { man := 1, exp := 0 } mouth_speed with
  | none => none
  | some activity_factor =>
    match fmul { man := 7, exp := -1 } activity_factor with
    | none => none
    | some syllables_per_second =>
      match fdiv { man := 1000, exp := 0 } syllables_per_second with
      | none => none
      | some q => double_to_u32 q

/-- Lines 136-137: `if (cycle_duration_ms < 150) cycle_duration_ms = 150;` and
`if (cycle_duration_ms > 800) cycle_duration_ms = 800;`, applied to the converted value. -/
def cycle_clamp (raw : Nat) : Nat :=
  let c := if raw < 150 then 150 else raw
  if c > 800 then 800 else c

/-- The cycle length in the words of the claim: `clamp(floor(1000 * mouth_speed / 3.5), 150,
800)`, on the exact value of `mouth_speed`. -/
def cycle_formula (mouth_speed : Dbl) : Nat :=
  min (max (Nat.floor (1000 * mouth_speed.toRat / (7 / 2))) 150) 800

/-- The debug tag of a frame of the speech sequence. -/
inductive FrameName where
  | OPEN
  | CLOSED
  | FINAL
  | PAUSE
  deriving DecidableEq, Repr

/-- The structure `AnimationFrame` (emotions.cpp, lines 28-32), over bitmaps of type `M`. -/
structure AnimationFrame (M : Type) where
  matrix : M
  duration_ms : Nat
  name : FrameName
  deriving DecidableEq, Repr

/-- The sum of the `duration_ms` of a sequence of frames, as an exact integer. -/
def scheduled_ms {M : Type} (frames : List (AnimationFrame M)) : Nat :=
  (frames.map (fun f => f.duration_ms)).sum

/-- The jittered duration `d + (rand() % (d / 5)) - (d / 10)` in `uint32_t`, `r` being
the value returned by `rand()`. -/
def jitter (d r : Nat) : Nat := u32_sub (u32_add d (r % (d / 5))) (d / 10)

/-- The frame-emission loop `while (accumulated_time < total_duration_ms)` (lines
152-178), from the loop state `accumulated_time`, `cycle_count`. The `i`-th call of
`rand()` returns `rand i`; `rand_index` counts the calls made so far. The result lists
the frames pushed from this state on, in order; `none` when `fuel` iterations do not
reach the end of the loop. -/
def talking_loop {M : Type} (total_duration_ms open_duration closed_duration : Nat)
    (open_matrix closed_matrix : M) (rand : Nat → Nat) :
    Nat → Nat → Nat → Nat → Option (List (AnimationFrame M))
  | 0, _, _, _ => none
  | fuel + 1, accumulated_time, cycle_count, rand_index =>
    if accumulated_time < total_duration_ms then
      let var_open := jitter open_duration (rand rand_index)
      let var_closed := jitter closed_duration (rand (rand_index + 1))
      if u32_add (u32_add accumulated_time var_open) var_closed ≤ total_duration_ms then
        let acc1 := u32_add accumulated_time (u32_add var_open var_closed)
        let cycle1 := cycle_count + 1
        if cycle1 % 4 = 0 ∧ u32_add acc1 100 < total_duration_ms then
          (talking_loop total_duration_ms open_duration closed_duration open_matrix
              closed_matrix rand fuel (u32_add acc1 100) cycle1 (rand_index + 2)).map
            (fun later =>
              { matrix := open_matrix, duration_ms := var_open, name := .OPEN } ::
              { matrix := closed_matrix, duration_ms := var_closed, name := .CLOSED } ::
              { matrix := closed_matrix, duration_ms := 100, name := .PAUSE } :: later)
        else
          (talking_loop total_duration_ms open_duration closed_duration open_matrix
              closed_matrix rand fuel acc1 cycle1 (rand_index + 2)).map
            (fun later =>
              { matrix := open_matrix, duration_ms := var_open, name := .OPEN } ::
              { matrix := closed_matrix, duration_ms := var_closed, name := .CLOSED } :: later)
      else
        let remaining := u32_sub total_duration_ms accumulated_time
        if remaining > 50 then
          some [{ matrix := open_matrix, duration_ms := remaining, name := .FINAL }]
        else some []
    else some []

/-- The function `setup_talking_animation`: the sequence it leaves in
`current_animation_sequence`. `raw_cycle` is the value of the conversion
`(uint32_t)(1000.0 / syllables_per_second)` (see `cycle_raw`), `rand` the stream of values
of `rand()`, `fuel` a bound on the number of loop iterations. -/
def setup_talking_animation {M : Type} (text : CppString) (total_duration_ms : Nat)
    (raw_cycle : Nat) (open_matrix closed_matrix : M) (rand : Nat → Nat) (fuel : Nat) :
    Option (List (AnimationFrame M)) :=
  if text = [] ∨ total_duration_ms = 0 then some []
  else
    let cycle_duration_ms := cycle_clamp raw_cycle
    let open_duration := (cycle_duration_ms * 6) / 10
    let closed_duration := (cycle_duration_ms * 4) / 10
    talking_loop total_duration_ms open_duration closed_duration open_matrix closed_matrix
      rand fuel 0 0 0

/-- The exact sum of the durations of the frames that the loop pushes from a loop state
on; `none` when `fuel` iterations do not reach the end of the loop. -/
def talking_loop_ms (total_duration_ms open_duration closed_duration : Nat)
    (rand : Nat → Nat) (fuel accumulated_time cycle_count rand_index : Nat) : Option Nat :=
  (talking_loop total_duration_ms open_duration closed_duration (0 : Nat) 1 rand fuel
    accumulated_time cycle_count rand_index).map scheduled_ms

/-! ## Dispatcher: the loop of `main` (main.cpp, lines 278-383)

The `double` globals (durations, intensity, clock readings in seconds) are modelled by
rationals, the differences of clock readings are taken exactly. `std::stod` is a
parameter `stod`, `none` standing for a thrown exception. The flag `display_initialized`
is set before the loop and never cleared, so it is taken as true. -/

/-- The globals of main.cpp that the loop reads and writes, and the local
`new_command_received`, which lives across iterations. -/
structure Globals where
  current_emotion : CppString
  talking_emotion : CppString
  current_duration : ℚ
  current_intensity : ℚ
  current_text : CppString
  current_mouth_speed : ℚ
  emotion_timer : ℚ
  anim_duration : ℚ
  last_emotion_time : ℚ
  new_command_received : Bool
  deriving DecidableEq

/-- What the loop does that is visible from outside the globals. -/
inductive Action where
  /-- The call `reset_emotion_state(emotion)`: the state object of `emotion` is replaced by
  a fresh one and `emotion_timer` is set to the clock reading `t`. -/
  | reset (emotion : CppString) (t : ℚ)
  /-- The call `emotions[emotion](intensity)` of the animation driver. -/
  | drive (emotion : CppString) (intensity : ℚ)
  /-- The acknowledgement line with `"status": "ok"`. -/
  | status_ok (emotion : CppString) (t : ℚ)
  /-- The event line with `"event": "emotion_finished"`. -/
  | finished (emotion : CppString)
  deriving DecidableEq

/-- The keys of the map `emotions` after `init_emotions` (lines 47-95). The loop only
indexes it with `current_emotion`, which is always one of them, so the key set is fixed. -/
def emotions_keys : List CppString :=
  [ascii "neutral", ascii "smile", ascii "smile_love", ascii "embarrassed", ascii "scary",
   ascii "happy", ascii "sad", ascii "surprise", ascii "talking"]

/-- The update `if (command.find(key) != command.end()) field = std::stod(command[key]);`:
the new value of the field, `none` when `std::stod` throws. -/
def stod_field (stod : CppString → Option ℚ) (command : StrMap) (key : CppString)
    (old : ℚ) : Option ℚ :=
  match map_find command key with
  | none => some old
  | some v => stod v

/-- The update `if (command.find(key) != command.end()) field = command[key];`. -/
def string_field (command : StrMap) (key : CppString) (old : CppString) : CppString :=
  match map_find command key with
  | none => old
  | some v => v

/-- The outcome of the command block (lines 284-337). -/
inductive Applied where
  /-- The key `emotion` is missing: `continue`, the rest of the iteration is skipped. -/
  | skipped
  /-- The call of `std::stod` threw; nothing catches it. -/
  | threw
  /-- The command was applied. -/
  | ok (g : Globals)
  deriving DecidableEq

/-- The command block of the loop (lines 284-337) on the decoded `command`. -/
def apply_command (stod : CppString → Option ℚ) (g : Globals) (command : StrMap) : Applied :=
  match map_find command (ascii "emotion") with
  | none => .skipped
  | some new_emotion =>
    match stod_field stod command (ascii "duration") g.current_duration with
    | none => .threw
    | some duration =>
      match stod_field stod command (ascii "intensity") g.current_intensity with
      | none => .threw
      | some intensity =>
        match stod_field stod command (ascii "mouth_speed") g.current_mouth_speed with
        | none => .threw
        | some mouth_speed =>
          match stod_field stod command (ascii "anim_duration") g.anim_duration with
          | none => .threw
          | some anim =>
            .ok { g with
              current_duration := duration
              current_intensity := intensity
              current_mouth_speed := mouth_speed
              current_text := string_field command (ascii "text") g.current_text
              anim_duration := anim
              talking_emotion :=
                string_field command (ascii "talking_emotion") g.talking_emotion
              current_emotion :=
                if new_emotion ∈ emotions_keys then new_emotion else ascii "neutral"
              new_command_received := true }

/-- The clock readings and the other inputs of one iteration of the loop. -/
structure TickInput where
  /-- The string returned by `read_command` (empty: no command). -/
  command_json : CppString
  /-- The reading of `get_time()` in the settle guard (line 339). -/
  t_guard : ℚ
  /-- The reading inside `reset_emotion_state` at the commit (line 342). -/
  t_commit : ℚ
  /-- The reading stored into `last_emotion_time` (line 346). -/
  t_last : ℚ
  /-- The reading printed in the acknowledgement (line 351). -/
  t_ok : ℚ
  /-- The flag `talking_state->talking` read after the driver ran (line 358). -/
  talking_after_drive : Bool
  /-- The reading of `get_time()` in the timeout test (line 364). -/
  t_timeout : ℚ
  /-- The reading inside `reset_emotion_state` at the timeout (line 373). -/
  t_timeout_reset : ℚ

/-- The commit of a pending command (lines 339-352), guarded by 500 ms since the last one. -/
def commit_phase (g : Globals) (inp : TickInput) : Globals × List Action :=
  if g.new_command_received = true ∧ inp.t_guard - g.last_emotion_time > 1 / 2 then
    ({ g with emotion_timer := inp.t_commit, last_emotion_time := inp.t_last,
              new_command_received := false },
     [.reset g.current_emotion inp.t_commit, .drive g.current_emotion g.current_intensity,
      .status_ok g.current_emotion inp.t_ok])
  else (g, [])

/-- The driver call of every iteration and the clearing of a finished text (lines 354-362). -/
def drive_phase (g : Globals) (inp : TickInput) : Globals × List Action :=
  (if inp.talking_after_drive = false ∧ g.current_text ≠ [] then
     { g with current_text := [], talking_emotion := [] }
   else g,
   [.drive g.current_emotion g.current_intensity])

/-- The timeout test (lines 364-380). -/
def timeout_phase (g : Globals) (inp : TickInput) : Globals × List Action :=
  if inp.t_timeout - g.emotion_timer ≥ g.current_duration then
    if g.current_emotion ≠ ascii "neutral" then
      ({ g with current_emotion := ascii "neutral", current_text := [], talking_emotion := [],
                emotion_timer := inp.t_timeout_reset },
       [.reset (ascii "neutral") inp.t_timeout_reset,
        .drive (ascii "neutral") g.current_intensity,
        .finished g.current_emotion])
    else (g, [])
  else (g, [])

/-- The outcome of one iteration of the loop. -/
inductive TickResult where
  /-- An exception of `std::stod` ends the program. -/
  | threw
  /-- The iteration ends with globals `g`, having done `acts` in this order. -/
  | next (g : Globals) (acts : List Action)
  deriving DecidableEq

/-- One iteration of the `while (true)` loop of `main`. -/
def tick (stod : CppString → Option ℚ) (g : Globals) (inp : TickInput) : TickResult :=
  let applied : Applied :=
    if inp.command_json ≠ [] then apply_command stod g (parse_json inp.command_json)
    else .ok g
  match applied with
  | .skipped => .next g []
  | .threw => .threw
  | .ok g1 =>
    let c := commit_phase g1 inp
    let d := drive_phase c.1 inp
    let t := timeout_phase d.1 inp
    .next t.1 (c.2 ++ d.2 ++ t.2)

/-- The globals when the loop is entered (lines 18-26 and 268-276): `t_reset` is the clock
reading inside the first `reset_emotion_state`, `t_last` the one stored into
`last_emotion_time`. -/
def main_init (t_reset t_last : ℚ) : Globals :=
  { current_emotion := ascii "neutral", talking_emotion := [], current_duration := 131 / 2,
    current_intensity := 2 / 5, current_text := [], current_mouth_speed := 1 / 2,
    emotion_timer := t_reset, anim_duration := 5, last_emotion_time := t_last,
    new_command_received := false }

/-- A stand-in for `std::stod`, used in examples only. It agrees with `std::stod` on plain
decimal numerals (digits with at most one point) and on strings whose first character
cannot start a number, for which `std::stod` throws. This is the scan: the value so far as
numerator and power of ten, `none` on any other character. -/
def stod_scan : List Nat → Nat → Nat → Bool → Bool → Option (Nat × Nat)
  | [], num, den, _, digits => if digits = true then some (num, den) else none
  | c :: rest, num, den, point, digits =>
    if 48 ≤ c ∧ c ≤ 57 then
      stod_scan rest (num * 10 + (c - 48)) (if point = true then den * 10 else den) point true
    else if c = 46 ∧ point = false then stod_scan rest num den true digits
    else none

/-- The value of a plain decimal numeral; see `stod_scan`. -/
def stod_plain (s : CppString) : Option ℚ :=
  match stod_scan s 0 1 false false with
  | none => none
  | some (num, den) => some ((num : ℚ) / (den : ℚ))

/-! ## RenderDiff: `draw_matrix` (emotions.cpp, lines 58-107) -/

/-- A bitmap `uint8_t[MATRIX_ROWS][MATRIX_COLS]` (mrx.h: 12 rows, 12 columns). -/
abbrev Matrix := Fin 12 → Fin 12 → Nat

/-- The two colours that `draw_matrix` uses (colors.h). -/
inductive Color where
  | STYLE_BG
  | STYLE_FACE
  deriving DecidableEq, Repr

/-- A call to the display driver. -/
inductive DisplayOp where
  /-- The call `st7789_fill(color)`: the whole surface. -/
  | fill (color : Color)
  /-- The call `st7789_fill_rect_optimized(X_OFFSET + col * pixel_size,
  Y_OFFSET + row * pixel_size, pixel_size, pixel_size, color)`: the cell `(row, col)`. -/
  | cell (row col : Fin 12) (pixel_size : Int) (color : Color)
  deriving DecidableEq, Repr

/-- The statics of emotions.cpp that `draw_matrix` reads and writes. -/
structure DrawState where
  prev_matrix : Matrix
  current_matrix : Matrix
  matrix_initialized : Bool
  last_draw_time : Nat

/-- The statics at program start: zeroed arrays, `matrix_initialized = false`,
`last_draw_time = 0`. -/
def draw_init : DrawState :=
  { prev_matrix := fun _ _ => 0, current_matrix := fun _ _ => 0,
    matrix_initialized := false, last_draw_time := 0 }

/-- The frame rate `ANIMATION_FPS`. -/
abbrev ANIMATION_FPS : Nat := 60

/-- The cells in the order of the two nested loops: rows outside, columns inside. -/
def matrix_cells : List (Fin 12 × Fin 12) :=
  (List.finRange 12).flatMap (fun row => (List.finRange 12).map (fun col => (row, col)))

/-- The arguments of a call of `draw_matrix` and the clock reading inside it. -/
structure DrawArgs where
  matrix : Matrix
  pixel_size : Int
  force_redraw : Bool
  current_time : Nat

/-- Whether the call passes the rate limit of line 62. -/
def draw_accepted (st : DrawState) (a : DrawArgs) : Bool :=
  !(decide (a.force_redraw = false) &&
    decide (u32_sub a.current_time st.last_draw_time < 1000 / ANIMATION_FPS))

/-- The function `draw_matrix`: the statics after the call and the driver calls issued. -/
def draw_matrix (st : DrawState) (a : DrawArgs) : DrawState × List DisplayOp :=
  if a.force_redraw = false ∧ u32_sub a.current_time st.last_draw_time < 1000 / ANIMATION_FPS
  then (st, [])
  else
    let ops : List DisplayOp :=
      if st.matrix_initialized = false ∨ a.force_redraw = true then
        .fill .STYLE_BG ::
          matrix_cells.filterMap (fun rc =>
            if a.matrix rc.1 rc.2 = 1 then
              some (.cell rc.1 rc.2 a.pixel_size .STYLE_FACE)
            else none)
      else
        matrix_cells.filterMap (fun rc =>
          if a.matrix rc.1 rc.2 ≠ st.prev_matrix rc.1 rc.2 then
            some (.cell rc.1 rc.2 a.pixel_size
              (if a.matrix rc.1 rc.2 = 1 then .STYLE_FACE else .STYLE_BG))
          else none)
    ({ prev_matrix := a.matrix, current_matrix := a.matrix, matrix_initialized := true,
       last_draw_time := a.current_time }, ops)

/-- The statics after a sequence of calls of `draw_matrix`. -/
def draw_run (st : DrawState) (calls : List DrawArgs) : DrawState :=
  calls.foldl (fun s a => (draw_matrix s a).1) st

/-- Whether one of the calls of a sequence passes the rate limit. -/
def any_accepted : DrawState → List DrawArgs → Bool
  | _, [] => false
  | st, a :: later => draw_accepted st a || any_accepted (draw_matrix st a).1 later

/-- A sample bitmap: the diagonal cells are 1, the others 0. -/
def diagonal_matrix : Matrix := fun row col => if row = col then 1 else 0

/-- A sample call: the diagonal bitmap, `PIXEL_SIZE` 20, not forced, at 100 ms. -/
def sample_draw : DrawArgs :=
  { matrix := diagonal_matrix, pixel_size := 20, force_redraw := false, current_time := 100 }

/-- A second sample call: the empty bitmap, not forced, at 200 ms. -/
def sample_clear : DrawArgs :=
  { matrix := fun _ _ => 0, pixel_size := 20, force_redraw := false, current_time := 200 }

/-! ## StreamFramer: byte streams and chunking -/

/-- The statics after the loop body has processed the byte `c`; a return resets them. -/
def framer_after_byte (s : FramerState) (c : Nat) : FramerState :=
  match read_command_byte s c with
  | .go s1 => s1
  | .ret _ => framer_reset

/-- What the framer sees of its input: a received byte, or the timeout of
`getchar_timeout_us` that ends a drain. -/
inductive FramerEvent where
  | byte (c : Nat)
  | timeout
  deriving DecidableEq, Repr

/-- The statics after an event: a byte runs the loop body, a timeout runs the test after
the loop (lines 231-239), which returns and resets when the buffer is complete. -/
def framer_after_event (s : FramerState) : FramerEvent → FramerState
  | .byte c => framer_after_byte s c
  | .timeout => if framer_complete s = true then framer_reset else s

/-- The statics after a sequence of events, that is after a byte stream cut into drains
in some way. -/
def framer_after (s : FramerState) (events : List FramerEvent) : FramerState :=
  events.foldl framer_after_event s

/-- The statics and the unread bytes after successive polls; see `poll_run`. -/
def poll_final : FramerState → List Nat → List (List Nat) → FramerState × List Nat
  | s, queue, [] => (s, queue)
  | s, queue, batch :: later =>
    match read_command s (queue ++ batch) with
    | (_, s1, rest) => poll_final s1 rest later

/-- A byte stream with every carriage-return byte removed. -/
def strip_cr (bytes : List Nat) : List Nat := bytes.filter (fun c => decide (c ≠ CH_CR))

/-- A byte that the framer only appends: no brace, carriage return or line feed. -/
def plain_byte (c : Nat) : Prop := c ≠ CH_LBRACE ∧ c ≠ CH_RBRACE ∧ c ≠ CH_CR ∧ c ≠ CH_LF

/-- The line `'{' body '}'`. -/
def braced (body : CppString) : CppString := CH_LBRACE :: body ++ [CH_RBRACE]

/-- The invariant of the reachable framer states: message mode implies a non-empty
buffer, and outside message mode `brace_count` is 0. -/
def framer_inv (s : FramerState) : Prop :=
  (s.in_json = true → s.buffer ≠ []) ∧ (s.in_json = false → s.brace_count = 0)

/-! ## CommandDecoder: messages built from tokens -/

/-- A character that `parse_json` collects outside quotes: not structural, not a quote and
not one of the four whitespace characters that the scan drops. -/
def token_char (c : Nat) : Prop :=
  c ≠ CH_LBRACE ∧ c ≠ CH_RBRACE ∧ c ≠ CH_COMMA ∧ c ≠ CH_COLON ∧ c ≠ CH_DQUOTE ∧
    c ≠ CH_SQUOTE ∧ c ≠ CH_SPACE ∧ c ≠ CH_TAB ∧ c ≠ CH_LF ∧ c ≠ CH_CR

/-- A non-empty unquoted token. -/
def plain_token (t : CppString) : Prop := t ≠ [] ∧ ∀ c ∈ t, token_char c

/-- The text `k:v` of a pair. -/
def render_pair (kv : CppString × CppString) : CppString := kv.1 ++ CH_COLON :: kv.2

/-- The text `k1:v1,...,kn:vn` of a list of pairs. -/
def render_pairs : List (CppString × CppString) → CppString
  | [] => []
  | [kv] => render_pair kv
  | kv :: kv2 :: rest => render_pair kv ++ CH_COMMA :: render_pairs (kv2 :: rest)

/-- The text `{k1:v1,...,kn:vn}`. -/
def render_object (pairs : List (CppString × CppString)) : CppString :=
  CH_LBRACE :: (render_pairs pairs ++ [CH_RBRACE])

/-- The map obtained by inserting the pairs in order into an empty map. -/
def map_of_pairs (pairs : List (CppString × CppString)) : StrMap :=
  pairs.foldl (fun m kv => map_assign m kv.1 kv.2) []

/-- The locals of `parse_json` in key mode, outside quotes, with empty buffers and the
map `m`. -/
def key_state (m : StrMap) : ParseState :=
  { result := m, key := [], value := [], in_key := true, in_value := false,
    in_string := false, quote_char := 0 }

/-- The locals of `parse_json` in value mode, outside quotes, with the key `k` and the
value `v` collected and the map `m`. -/
def value_state (m : StrMap) (k v : CppString) : ParseState :=
  { result := m, key := k, value := v, in_key := false, in_value := true,
    in_string := false, quote_char := 0 }

/-- The text `{ q k q : q v q }` of one pair quoted with the quote character `q`
(written here with blanks between the parts, the text has none). -/
def quoted_object (q : Nat) (k v : CppString) : CppString :=
  CH_LBRACE :: q :: (k ++ q :: CH_COLON :: q :: (v ++ [q, CH_RBRACE]))

/-- The structure `NeutralState`; `pupil_direction` is an `int8_t`. -/
structure NeutralState where
  last_blink : Nat
  start_time : Nat
  sleep_start : Nat
  last_yawn : Nat
  pupil_direction : Int
  blink : Bool
  blink_phase : Nat
  blink_start : Nat
  matrix : Bool
  sleep_blink_phase : Nat
  deriving DecidableEq, Repr

/-- The structure `TalkingState`. -/
structure TalkingState where
  talking : Bool
  frame : Nat
  start_time : Nat
  last_frame : Nat
  emotion : CppString
  syllables : Nat
  program_step : Nat
  last_step_time : Nat
  deriving DecidableEq, Repr

/-- What the `void*` returned by `reset_state` points to. -/
inductive EmotionState where
  | neutral (s : NeutralState)
  | talking (s : TalkingState)
  | anim (s : AnimState)
  deriving DecidableEq, Repr

/-- The three structures of states.h. -/
inductive StateShape where
  | NeutralState
  | TalkingState
  | AnimState
  deriving DecidableEq, Repr

/-- The structure behind an `EmotionState`. -/
def EmotionState.shape : EmotionState → StateShape
  | .neutral _ => .NeutralState
  | .talking _ => .TalkingState
  | .anim _ => .AnimState

/-- The functions `get_neutral_state` and `reset_neutral_state`: the default member
initialisers, and `pupil_direction = (rand() % 7) - 3`, `r` being the value of `rand()`. -/
def get_neutral_state (r : Nat) : NeutralState :=
  { last_blink := 0, start_time := 0, sleep_start := 0, last_yawn := 0,
    pupil_direction := ((r % 7 : Nat) : Int) - 3, blink := false, blink_phase := 0,
    blink_start := 0, matrix := true, sleep_blink_phase := 0 }

/-- The functions `get_talking_state` and `reset_talking_state`: the default member
initialisers. -/
def get_talking_state : TalkingState :=
  { talking := false, frame := 0, start_time := 0, last_frame := 0,
    emotion := ascii "neutral", syllables := 1, program_step := 0, last_step_time := 0 }

/-- The function `reset_state` (states.cpp, lines 41-49); `r` is the value that `rand()`
returns when it is called. -/
def reset_state (emotion : CppString) (r : Nat) : EmotionState :=
  if emotion = ascii "neutral" then .neutral (get_neutral_state r)
  else if emotion = ascii "talking" then .talking get_talking_state
  else .anim get_anim_state

/-- The structure to which the handler of an emotion in `init_emotions` casts the state
pointer (main.cpp, lines 48-94); `none` for a name without handler. -/
def handler_shape (emotion : CppString) : Option StateShape :=
  if emotion = ascii "neutral" then some .NeutralState
  else if emotion ∈ [ascii "smile", ascii "smile_love", ascii "embarrassed", ascii "scary",
      ascii "happy", ascii "sad", ascii "surprise"] then some .AnimState
  else if emotion = ascii "talking" then some .TalkingState
  else none

/-! ## Runs of `anime_logic`: counting the frame changes -/

/-- The number of calls of a run, started in `state`, that changed `state.frame`. -/
def frame_advances {M : Type} : AnimState → List (AnimState × List (DrawCall M)) → Nat
  | _, [] => 0
  | state, x :: later =>
    (if x.1.frame = state.frame then 0 else 1) + frame_advances x.1 later

/-- The state after the last call of a run started in `state`. -/
def last_state {M : Type} : AnimState → List (AnimState × List (DrawCall M)) → AnimState
  | state, [] => state
  | _, x :: later => last_state x.1 later

/-! ## Frame time of `anime_logic` (emotions.cpp, line 419) -/

/-- The conversion `(uint32_t)(speed * 1000)` of line 419, for a positive `double`
`speed`; `none` where the product or the conversion is not defined. -/
def speed_to_ms (speed : Dbl) : Option Nat :=
  match fmul speed { man := 1000, exp := 0 } with
  | none => none
  | some product => double_to_u32 product

/-! ## The surface as a grid of colours

The display surface is modelled by the colour of each of the 12 x 12 cells. All callers
pass `PIXEL_SIZE` as the cell size; with it the cells tile the square at `X_OFFSET = 0`,
`Y_OFFSET = 40` of the 240 x 320 display. -/

/-- The value of `PIXEL_SIZE` (emotions.h). -/
abbrev PIXEL_SIZE : Int := 20

/-- The surface: the colour shown at each cell. -/
abbrev Surface := Fin 12 → Fin 12 → Color

/-- The effect of one driver call on the surface: `st7789_fill` colours every cell, the
rectangle of a cell colours that cell. -/
def paint (surface : Surface) : DisplayOp → Surface
  | .fill color => fun _ _ => color
  | .cell row col _ color => fun r c => if r = row ∧ c = col then color else surface r c

/-- The effect of a sequence of driver calls, in order. -/
def paint_all (surface : Surface) (ops : List DisplayOp) : Surface := ops.foldl paint surface

/-- The surface that shows a grid: foreground exactly at the cells whose value is 1,
background elsewhere. -/
def surface_of (matrix : Matrix) : Surface :=
  fun r c => if matrix r c = 1 then .STYLE_FACE else .STYLE_BG

/-- One call of `draw_matrix` on the statics and the surface. -/
def draw_step (p : DrawState × Surface) (a : DrawArgs) : DrawState × Surface :=
  ((draw_matrix p.1 a).1, paint_all p.2 (draw_matrix p.1 a).2)

/-- The statics and the surface after a sequence of calls of `draw_matrix`. -/
def draw_surface_run (p : DrawState × Surface) (calls : List DrawArgs) :
    DrawState × Surface :=
  calls.foldl draw_step p

/-! ## Sample iterations of the dispatcher -/

set_option maxRecDepth 100000 in
/-- C1: decoding the message with quoted `emotion` and `duration` fields yields exactly
the two entries `duration -> 3.5` and `emotion -> happy`, their values without quotes. -/
theorem parse_json_happy_example :
    parse_json (ascii "\x7b\"emotion\":\"happy\",\"duration\":\"3.5\"\x7d")
      = [(ascii "duration", ascii "3.5"), (ascii "emotion", ascii "happy")] := by
  decide

/-! ### StreamFramer -/

/-- Claim C2 as stated fails: the two bytes of an empty object, with no line-feed at all,
make the very first poll return them as a message (the return after the drain loop,
lines 231-239). -/
theorem read_command_returns_without_newline :
    ¬ (∀ arrivals : List (List Nat), (∀ batch ∈ arrivals, CH_LF ∉ batch) →
        ∀ cmd ∈ poll_run framer_reset [] arrivals, cmd = []) := by
  intro h
  have h1 := h [ascii "\x7b\x7d"] (by decide) (ascii "\x7b\x7d") (by decide)
  exact absurd h1 (by decide)

/-- C2 (amended): whenever a call of `read_command` returns a message, it does so either
while processing a line-feed byte or at the end of the drain; at that moment `in_json`
holds, `brace_count` is 0 and the buffer is non-empty, the message is that buffer, the
statics are reset, and the bytes after the line-feed stay unread. -/
theorem read_command_returns_only_complete (s : FramerState) (input : List Nat)
    (cmd : CppString) (s1 : FramerState) (rest : List Nat)
    (h : read_command s input = (cmd, s1, rest)) (hne : cmd ≠ []) :
    ∃ pre mid, framer_run s pre = some mid ∧ mid.in_json = true ∧ mid.brace_count = 0 ∧
      mid.buffer ≠ [] ∧ mid.buffer = cmd ∧ s1 = framer_reset ∧
      (input = pre ++ CH_LF :: rest ∨ (input = pre ∧ rest = [])) := by
  induction input generalizing s with
  | nil =>
    unfold read_command at h
    by_cases hc : framer_complete s = true
    · rw [if_pos hc] at h
      simp only [Prod.mk.injEq] at h
      obtain ⟨h1, h2, h3⟩ := h
      simp only [framer_complete, Bool.and_eq_true, decide_eq_true_eq] at hc
      exact ⟨[], s, rfl, hc.1.1, hc.1.2, hc.2, h1, h2.symm, Or.inr ⟨rfl, h3.symm⟩⟩
    · rw [if_neg hc] at h
      simp only [Prod.mk.injEq] at h
      exact absurd h.1.symm hne
  | cons c tl ih =>
    unfold read_command at h
    cases hb : read_command_byte s c with
    | ret cmd1 =>
      rw [hb] at h
      simp only [Prod.mk.injEq] at h
      obtain ⟨h1, h2, h3⟩ := h
      have hlf : c = CH_LF ∧ framer_complete s = true ∧ cmd1 = s.buffer := by
        unfold read_command_byte at hb
        by_cases a1 : c = CH_CR
        · rw [if_pos a1] at hb; cases hb
        · rw [if_neg a1] at hb
          by_cases a2 : c = CH_LF
          · rw [if_pos a2] at hb
            by_cases a3 : framer_complete s = true
            · rw [if_pos a3] at hb
              simp only [ByteOutcome.ret.injEq] at hb
              exact ⟨a2, a3, hb.symm⟩
            · rw [if_neg a3] at hb
              split_ifs at hb
          · rw [if_neg a2] at hb
            dsimp only at hb
            split_ifs at hb
      obtain ⟨hc1, hc2, hc3⟩ := hlf
      simp only [framer_complete, Bool.and_eq_true, decide_eq_true_eq] at hc2
      refine ⟨[], s, rfl, hc2.1.1, hc2.1.2, hc2.2, ?_, h2.symm, Or.inl ?_⟩
      · rw [← h1, hc3]
      · rw [hc1, h3]; rfl
    | go s2 =>
      rw [hb] at h
      obtain ⟨pre, mid, g1, g2, g3, g4, g5, g6, g7⟩ := ih s2 h
      refine ⟨c :: pre, mid, ?_, g2, g3, g4, g5, g6, ?_⟩
      · simp only [framer_run, hb]; exact g1
      · rcases g7 with g7 | ⟨g7, g8⟩
        · left; rw [g7]; rfl
        · right; exact ⟨by rw [g7], g8⟩

/-- C2 (amended), at a line that ends with a line-feed and at a drain that ends without. -/
theorem read_command_returns_only_complete_witness :
    (∃ pre mid, framer_run framer_reset pre = some mid ∧ mid.in_json = true ∧
      mid.brace_count = 0 ∧ mid.buffer ≠ [] ∧ mid.buffer = ascii "\x7ba\x7d" ∧
      framer_reset = framer_reset ∧
      (ascii "\x7ba\x7d\nxy" = pre ++ CH_LF :: ascii "xy" ∨
        (ascii "\x7ba\x7d\nxy" = pre ∧ ascii "xy" = []))) :=
  read_command_returns_only_complete framer_reset (ascii "\x7ba\x7d\nxy") (ascii "\x7ba\x7d")
    framer_reset (ascii "xy") (by decide) (by decide)

/-! ### CommandDecoder -/

/-- Without a colon the scan never enters value mode, so nothing is ever stored. -/
theorem parse_step_no_colon (s : ParseState) (c : Nat) (hc : c ≠ CH_COLON)
    (h : s.in_value = false ∧ s.value = [] ∧ s.result = []) :
    (parse_step s c).in_value = false ∧ (parse_step s c).value = [] ∧
      (parse_step s c).result = [] := by
  obtain ⟨h1, h2, h3⟩ := h
  unfold parse_step parse_flush parse_append
  simp only [h1, h2, h3, hc]
  split_ifs <;> simp_all

/-- The invariant of `parse_step_no_colon` along a whole scan. -/
theorem parse_scan_no_colon (json_str : CppString) (s : ParseState)
    (hc : CH_COLON ∉ json_str)
    (h : s.in_value = false ∧ s.value = [] ∧ s.result = []) :
    (parse_scan s json_str).in_value = false ∧ (parse_scan s json_str).value = [] ∧
      (parse_scan s json_str).result = [] := by
  induction json_str generalizing s with
  | nil => exact h
  | cons c tl ih =>
    simp only [List.mem_cons, not_or] at hc
    exact ih (parse_step s c) hc.2 (parse_step_no_colon s c (fun e => hc.1 e.symm) h)

/-- C3: for every input string without a colon character, `parse_json` returns the
empty mapping. -/
theorem parse_json_no_colon_empty (json_str : CppString) (hc : CH_COLON ∉ json_str) :
    parse_json json_str = [] := by
  obtain ⟨-, h2, h3⟩ := parse_scan_no_colon json_str parse_init hc ⟨rfl, rfl, rfl⟩
  unfold parse_json parse_flush
  simp [h2, h3]

/-- C3 at a brace-wrapped, comma-separated input that has keys but no colon. -/
theorem parse_json_no_colon_empty_witness :
    CH_COLON ∉ ascii "\x7b\"emotion\",happy\x7d" ∧
      parse_json (ascii "\x7b\"emotion\",happy\x7d") = [] :=
  ⟨by decide, parse_json_no_colon_empty (ascii "\x7b\"emotion\",happy\x7d") (by decide)⟩

/-! ### Syllable count -/

/-- The count is never below 1, whatever the text. -/
theorem count_syllables_pos (text : CppString) : 1 ≤ count_syllables text := by
  unfold count_syllables
  dsimp only
  split_ifs with h
  · exact h
  · exact le_refl 1

/-- The loop of `count_syllables` counts the bytes for which `strchr` succeeds. -/
theorem count_loop_eq_countP (text : CppString) (n : Nat) :
    text.foldl (fun n c => if strchr_found VOWELS (tolower c) = true then n + 1 else n) n
      = n + text.countP (fun c => strchr_found VOWELS (tolower c)) := by
  induction text generalizing n with
  | nil => simp
  | cons c tl ih =>
    simp only [List.foldl_cons, List.countP_cons]
    rw [ih]
    split_ifs <;> omega

/-- On a text without NUL bytes the code agrees with the wording of the specification. -/
theorem count_syllables_eq_spec_of_no_nul (text : CppString) (h0 : 0 ∉ text) :
    count_syllables text = count_syllables_spec text := by
  have hc : text.countP (fun c => strchr_found VOWELS (tolower c))
      = text.countP matches_vowel_set := by
    apply List.countP_congr
    intro c hc
    have hne : c ≠ 0 := fun e => h0 (e ▸ hc)
    have hl : tolower c ≠ 0 := by
      unfold tolower; split_ifs <;> omega
    simp [strchr_found, matches_vowel_set, hl]
  unfold count_syllables count_syllables_spec
  rw [count_loop_eq_countP, hc]
  dsimp only
  split_ifs with h <;> omega

/-- Among the ASCII bytes 1..127 exactly the letters a, e, i, o, u, y of either case
match the vowel set. -/
theorem matches_vowel_set_ascii (c : Nat) (h1 : 1 ≤ c) (h2 : c < 128) :
    matches_vowel_set c = true ↔ c ∈ ascii "aeiouyAEIOUY" := by
  interval_cases c <;> decide

/-- C5 (the code departs from the claim): on a text of two NUL bytes `count_syllables`
returns 2, because `strchr` finds the terminator of `VOWELS`; no character of that text
matches the vowel set, so the claimed value is `max(1, 0) = 1`. -/
theorem count_syllables_counts_nul :
    count_syllables [0, 0] = 2 ∧ count_syllables_spec [0, 0] = 1 ∧
      [0, 0].countP matches_vowel_set = 0 := by
  decide

/-! ### FrameScheduler -/

/-- With `duration = 0` the scheduler is static: a non-animating state stays as it is and
the start bitmap is drawn non-forced. -/
theorem anime_logic_duration_zero {M : Type} (state : AnimState) (speed_ms now : Nat)
    (ms ma mb mc me : Option M) (h : state.animating = false) :
    anime_logic state speed_ms 0 now ms ma mb mc me = (state, draw_if ms false) := by
  simp [anime_logic, h]

/-- C7 (the code departs from the claim): with `duration = 1` or `duration = 2` the first
call on a freshly reset state takes the branch `!animating && duration > 0`: it sets
`animating = true` and draws the start bitmap forced; the next call draws nothing and the
state stays animating. -/
theorem anime_logic_short_duration_animates :
    anime_calls get_anim_state 400 1 (some 0) (some 1) (some 2) (some 3) (some 4) [1000, 1001]
      = [({ animating := true, frame := 0, start_time := 1000, last_frame := 1000,
            cycle_count := 0 }, [{ matrix := 0, force_redraw := true }]),
         ({ animating := true, frame := 0, start_time := 1000, last_frame := 1000,
            cycle_count := 0 }, [])] ∧
    anime_calls get_anim_state 400 2 (some 0) (some 1) (some 2) (some 3) (some 4) [1000, 1001]
      = [({ animating := true, frame := 0, start_time := 1000, last_frame := 1000,
            cycle_count := 0 }, [{ matrix := 0, force_redraw := true }]),
         ({ animating := true, frame := 0, start_time := 1000, last_frame := 1000,
            cycle_count := 0 }, [])] := by
  decide

/-- For `duration > 0` the first call on a reset state starts the animation at `now`. -/
theorem anime_logic_first_call {M : Type} (speed_ms duration now : Nat)
    (ms ma mb mc me : Option M) (h : 0 < duration) :
    (anime_logic get_anim_state speed_ms duration now ms ma mb mc me).1
      = { animating := true, frame := 0, start_time := now, last_frame := now,
          cycle_count := 0 } := by
  simp [anime_logic, get_anim_state, h]

/-- As long as `duration * 1000` fits 32 bits, a call that ends the animation sees an
elapsed time of at least `duration * 1000` ms. -/
theorem anime_logic_stop_only_after_duration {M : Type} (state : AnimState)
    (speed_ms duration now : Nat) (ms ma mb mc me : Option M)
    (hfit : duration * 1000 < U32) (ha : state.animating = true)
    (hs : (anime_logic state speed_ms duration now ms ma mb mc me).1.animating = false) :
    duration * 1000 ≤ u32_sub now state.start_time := by
  unfold anime_logic at hs
  simp only [ha, Bool.true_eq_false, false_and, if_false, true_and] at hs
  have hm : u32_mul duration 1000 = duration * 1000 := Nat.mod_eq_of_lt hfit
  by_cases h2 : duration > 2
  · rw [if_pos h2] at hs
    by_cases he : u32_sub now state.start_time < u32_mul duration 1000
    · rw [if_pos he] at hs
      split_ifs at hs <;> simp_all
    · rw [hm] at he
      exact Nat.le_of_not_lt he
  · rw [if_neg h2] at hs
    simp_all

/-- C8 (the code departs from the claim): `duration * 1000` is computed in 32 bits. For
`duration = 4294968` it wraps to 704, so the call 704 ms after the start ends the
animation, although `704 < 4294968 * 1000`. -/
theorem anime_logic_duration_wraps :
    anime_calls get_anim_state 400 4294968 (some 0) (some 1) (some 2) (some 3) (some 4) [0, 704]
      = [({ animating := true, frame := 0, start_time := 0, last_frame := 0,
            cycle_count := 0 }, [{ matrix := 0, force_redraw := true }]),
         ({ animating := false, frame := 0, start_time := 0, last_frame := 0,
            cycle_count := 0 }, [{ matrix := 4, force_redraw := true }])] ∧
    u32_sub 704 0 < 4294968 * 1000 := by
  decide

/-! ### Cycle length of the speech animation -/

/-- Claim C6 as stated fails: for `mouth_speed = 0x1.75a1cac083127p+0` (the `double`
written `1.4595`) the three rounded operations give 416.99999999999994, so the code
computes a cycle of 416 ms, while `floor(1000 * mouth_speed / 3.5)` is 417. -/
theorem cycle_differs_from_formula :
    (cycle_raw { man := 6573003656147239, exp := -52 }).map cycle_clamp = some 416 ∧
      cycle_formula { man := 6573003656147239, exp := -52 } = 417 := by
  constructor
  · decide
  · have h : Nat.floor ((1000 : ℚ) * (((6573003656147239 : ℕ) : ℚ) * (2 : ℚ) ^ (-52 : ℤ)) / (7 / 2))
        = 417 := by
      rw [Nat.floor_eq_iff (by positivity)]
      constructor <;> norm_num
    simp only [cycle_formula, Dbl.toRat, h]
    decide

/-- The clamp of lines 136-137 as one expression. -/
theorem cycle_clamp_eq (raw : Nat) : cycle_clamp raw = min (max raw 150) 800 := by
  unfold cycle_clamp
  dsimp only
  split_ifs <;> omega

/-- C6 (amended): the cycle length is the clamp to [150, 800] of the converted `double`
quotient, so it lies in [150, 800] whatever `mouth_speed` is; for `mouth_speed = 1.0` the
converted value is 285 and the clamp leaves it, for `mouth_speed = 10.0` it is 2857 and
the result is 800. -/
theorem cycle_clamp_range_and_examples :
    (∀ raw : Nat, cycle_clamp raw = min (max raw 150) 800 ∧
      150 ≤ cycle_clamp raw ∧ cycle_clamp raw ≤ 800) ∧
    cycle_raw { man := 1, exp := 0 } = some 285 ∧ cycle_clamp 285 = 285 ∧
    cycle_raw { man := 10, exp := 0 } = some 2857 ∧ cycle_clamp 2857 = 800 := by
  refine ⟨fun raw => ?_, by decide, by decide, by decide, by decide⟩
  have h := cycle_clamp_eq raw
  refine ⟨h, ?_, ?_⟩ <;> omega

/-! ### Speech sequence -/

/-- For a nominal duration up to 480 ms the jitter expression does not wrap: it is
`d + r % (d / 5) - d / 10`, at least `d - d / 10` and below `d + d / 5 - d / 10`. -/
theorem jitter_bounds (d r : Nat) (h1 : 5 ≤ d) (h2 : d ≤ 480) :
    jitter d r = d + r % (d / 5) - d / 10 ∧ d ≤ jitter d r + d / 10 ∧
      jitter d r + d / 10 + 1 ≤ d + d / 5 := by
  have hj : r % (d / 5) < d / 5 := Nat.mod_lt _ (by omega)
  have e : jitter d r = d + r % (d / 5) - d / 10 := by
    have hU : U32 = 4294967296 := rfl
    unfold jitter u32_sub u32_add
    generalize r % (d / 5) = j at hj
    have e1 : (d + j) % U32 = d + j := Nat.mod_eq_of_lt (by omega)
    have e2 : d + j + U32 - d / 10 = (d + j - d / 10) + U32 := by omega
    have e3 : (d + j - d / 10) % U32 = d + j - d / 10 := Nat.mod_eq_of_lt (by omega)
    rw [e1, e2, Nat.add_mod_right, e3]
  rw [e]
  omega

/-- As long as the 32-bit fit test cannot wrap (`total_duration_ms + 878 <= 2^32`), the
loop ends within `total_duration_ms - accumulated_time + 1` iterations and the frames it
pushes fit into the remaining budget. -/
theorem talking_loop_fits {M : Type} (total od cd : Nat) (om cm : M) (rand : Nat → Nat)
    (ht : total + 878 ≤ U32) (ho1 : 90 ≤ od) (ho2 : od ≤ 480) (hc1 : 60 ≤ cd)
    (hc2 : cd ≤ 320) :
    ∀ fuel acc cc ri, acc ≤ total → total - acc < fuel →
      ∃ frames, talking_loop total od cd om cm rand fuel acc cc ri = some frames ∧
        acc + scheduled_ms frames ≤ total := by
  intro fuel
  induction fuel with
  | zero => intro acc cc ri _ h; omega
  | succ fuel ih =>
    intro acc cc ri hacc hfuel
    have hU : U32 = 4294967296 := rfl
    have o1 : 1 ≤ jitter od (rand ri) ∧ jitter od (rand ri) ≤ 527 := by
      obtain ⟨-, a, b⟩ := jitter_bounds od (rand ri) (by omega) ho2
      omega
    have c1 : 1 ≤ jitter cd (rand (ri + 1)) ∧ jitter cd (rand (ri + 1)) ≤ 351 := by
      obtain ⟨-, a, b⟩ := jitter_bounds cd (rand (ri + 1)) (by omega) (by omega)
      omega
    unfold talking_loop
    generalize jitter od (rand ri) = vo at o1
    generalize jitter cd (rand (ri + 1)) = vc at c1
    clear ho1 ho2 hc1 hc2
    by_cases hlt : acc < total
    · rw [if_pos hlt]
      have e1 : u32_add (u32_add acc vo) vc = acc + vo + vc := by
        have a1 : (acc + vo) % U32 = acc + vo := Nat.mod_eq_of_lt (by omega)
        have a2 : (acc + vo + vc) % U32 = acc + vo + vc := Nat.mod_eq_of_lt (by omega)
        unfold u32_add
        rw [a1, a2]
      have e2 : u32_add acc (u32_add vo vc) = acc + vo + vc := by
        have a1 : (vo + vc) % U32 = vo + vc := Nat.mod_eq_of_lt (by omega)
        have a2 : (acc + (vo + vc)) % U32 = acc + (vo + vc) := Nat.mod_eq_of_lt (by omega)
        unfold u32_add
        rw [a1, a2]
        omega
      dsimp only
      rw [e1, e2]
      by_cases hfit : acc + vo + vc ≤ total
      · rw [if_pos hfit]
        have e3 : u32_add (acc + vo + vc) 100 = acc + vo + vc + 100 := by
          unfold u32_add
          exact Nat.mod_eq_of_lt (by omega)
        rw [e3]
        by_cases hp : (cc + 1) % 4 = 0 ∧ acc + vo + vc + 100 < total
        · rw [if_pos hp]
          obtain ⟨later, hl, hs⟩ := ih (acc + vo + vc + 100) (cc + 1) (ri + 2) (by omega)
            (by omega)
          refine ⟨_, by rw [hl]; rfl, ?_⟩
          simp only [scheduled_ms, List.map_cons, List.sum_cons] at hs ⊢
          omega
        · rw [if_neg hp]
          obtain ⟨later, hl, hs⟩ := ih (acc + vo + vc) (cc + 1) (ri + 2) hfit (by omega)
          refine ⟨_, by rw [hl]; rfl, ?_⟩
          simp only [scheduled_ms, List.map_cons, List.sum_cons] at hs ⊢
          omega
      · rw [if_neg hfit]
        have e4 : u32_sub total acc = total - acc := by
          unfold u32_sub
          have a1 : total + U32 - acc = (total - acc) + U32 := by omega
          have a2 : (total - acc) % U32 = total - acc := Nat.mod_eq_of_lt (by omega)
          rw [a1, Nat.add_mod_right, a2]
        rw [e4]
        by_cases hr : total - acc > 50
        · rw [if_pos hr]
          refine ⟨_, rfl, ?_⟩
          simp only [scheduled_ms, List.map_cons, List.map_nil, List.sum_cons, List.sum_nil]
          omega
        · rw [if_neg hr]
          exact ⟨[], rfl, by simp [scheduled_ms]; exact hacc⟩
    · rw [if_neg hlt]
      exact ⟨[], rfl, by simp [scheduled_ms]; exact hacc⟩

/-- The clamp puts the nominal open and closed durations into [90, 480] and [60, 320]. -/
theorem open_closed_range (raw : Nat) :
    90 ≤ cycle_clamp raw * 6 / 10 ∧ cycle_clamp raw * 6 / 10 ≤ 480 ∧
      60 ≤ cycle_clamp raw * 4 / 10 ∧ cycle_clamp raw * 4 / 10 ≤ 320 := by
  have h := cycle_clamp_eq raw
  omega

/-- For every text, converted cycle value and random stream, and every
`total_duration_ms <= 2^32 - 878`, `setup_talking_animation` returns (with
`total_duration_ms + 1` iterations of fuel) and the durations of its frames sum to at
most `total_duration_ms`. -/
theorem setup_talking_animation_sum_le {M : Type} (text : CppString) (total raw : Nat)
    (om cm : M) (rand : Nat → Nat) (ht : total + 878 ≤ U32) :
    ∃ frames, setup_talking_animation text total raw om cm rand (total + 1) = some frames ∧
      scheduled_ms frames ≤ total := by
  unfold setup_talking_animation
  by_cases h : text = [] ∨ total = 0
  · rw [if_pos h]
    exact ⟨[], rfl, by simp [scheduled_ms]⟩
  · rw [if_neg h]
    obtain ⟨a, b, c, d⟩ := open_closed_range raw
    obtain ⟨frames, hf, hs⟩ := talking_loop_fits total _ _ om cm rand ht a b c d
      (total + 1) 0 0 0 (Nat.zero_le _) (by omega)
    exact ⟨frames, hf, by omega⟩

/-- One iteration that pushes a full cycle and no pause. -/
theorem talking_loop_ms_cycle (total od cd : Nat) (rand : Nat → Nat)
    (fuel acc cc ri : Nat) (h1 : acc < total)
    (h2 : u32_add (u32_add acc (jitter od (rand ri))) (jitter cd (rand (ri + 1))) ≤ total)
    (h3 : ¬ ((cc + 1) % 4 = 0 ∧
      u32_add (u32_add acc (u32_add (jitter od (rand ri)) (jitter cd (rand (ri + 1))))) 100
        < total)) :
    talking_loop_ms total od cd rand (fuel + 1) acc cc ri
      = (talking_loop_ms total od cd rand fuel
          (u32_add acc (u32_add (jitter od (rand ri)) (jitter cd (rand (ri + 1)))))
          (cc + 1) (ri + 2)).map
        (fun x => jitter od (rand ri) + jitter cd (rand (ri + 1)) + x) := by
  unfold talking_loop_ms
  rw [talking_loop]
  simp only [if_pos h1, if_pos h2, if_neg h3, Option.map_map]
  congr 1
  funext later
  simp only [Function.comp, scheduled_ms, List.map_cons, List.sum_cons]
  omega

/-- One iteration that pushes a full cycle and the pause after it. -/
theorem talking_loop_ms_pause (total od cd : Nat) (rand : Nat → Nat)
    (fuel acc cc ri : Nat) (h1 : acc < total)
    (h2 : u32_add (u32_add acc (jitter od (rand ri))) (jitter cd (rand (ri + 1))) ≤ total)
    (h3 : (cc + 1) % 4 = 0 ∧
      u32_add (u32_add acc (u32_add (jitter od (rand ri)) (jitter cd (rand (ri + 1))))) 100
        < total) :
    talking_loop_ms total od cd rand (fuel + 1) acc cc ri
      = (talking_loop_ms total od cd rand fuel
          (u32_add (u32_add acc (u32_add (jitter od (rand ri)) (jitter cd (rand (ri + 1)))))
            100)
          (cc + 1) (ri + 2)).map
        (fun x => jitter od (rand ri) + jitter cd (rand (ri + 1)) + 100 + x) := by
  unfold talking_loop_ms
  rw [talking_loop]
  simp only [if_pos h1, if_pos h2, if_pos h3, Option.map_map]
  congr 1
  funext later
  simp only [Function.comp, scheduled_ms, List.map_cons, List.sum_cons]
  omega

/-- The last iteration, when the cycle does not fit and more than 50 ms remain. -/
theorem talking_loop_ms_final (total od cd : Nat) (rand : Nat → Nat)
    (fuel acc cc ri : Nat) (h1 : acc < total)
    (h2 : ¬ u32_add (u32_add acc (jitter od (rand ri))) (jitter cd (rand (ri + 1))) ≤ total)
    (h3 : u32_sub total acc > 50) :
    talking_loop_ms total od cd rand (fuel + 1) acc cc ri = some (u32_sub total acc) := by
  unfold talking_loop_ms
  rw [talking_loop]
  simp only [if_pos h1, if_neg h2, if_pos h3, Option.map_some']
  simp [scheduled_ms]

/-- The two jittered durations of the run below: `rand()` always returns 58 and the cycle
is 800 ms, so every OPEN frame lasts 490 ms and every CLOSED frame 346 ms. -/
theorem wrap_run_jitter : jitter 480 58 = 490 ∧ jitter 320 58 = 346 := by
  decide

/-- Sums below `2^32` are not changed by the 32-bit reduction. -/
theorem u32_add_small (a b : Nat) (h : a + b < U32) : u32_add a b = a + b :=
  Nat.mod_eq_of_lt h

/-- In the run below, a cycle that fits without wrapping and is not followed by a pause. -/
theorem wrap_run_cycle (fuel acc cc ri : Nat) (h1 : acc + 836 ≤ 4294967000)
    (h2 : (cc + 1) % 4 ≠ 0) :
    talking_loop_ms 4294967000 480 320 (fun _ => 58) (fuel + 1) acc cc ri
      = (talking_loop_ms 4294967000 480 320 (fun _ => 58) fuel (acc + 836) (cc + 1)
          (ri + 2)).map (fun x => 836 + x) := by
  have hU : U32 = 4294967296 := rfl
  have h := talking_loop_ms_cycle 4294967000 480 320 (fun _ => 58) fuel acc cc ri
  simp only [wrap_run_jitter.1, wrap_run_jitter.2] at h
  have e0 : u32_add 490 346 = 836 := by decide
  have e1 : u32_add acc 490 = acc + 490 := u32_add_small _ _ (by omega)
  have e2 : u32_add (acc + 490) 346 = acc + 836 := u32_add_small _ _ (by omega)
  have e3 : u32_add acc 836 = acc + 836 := u32_add_small _ _ (by omega)
  rw [e0, e1, e2, e3] at h
  exact h (by omega) h1 (fun a => h2 a.1)

/-- In the run below, a cycle that fits without wrapping and is followed by a pause. -/
theorem wrap_run_pause (fuel acc cc ri : Nat) (h1 : acc + 936 < 4294967000)
    (h2 : (cc + 1) % 4 = 0) :
    talking_loop_ms 4294967000 480 320 (fun _ => 58) (fuel + 1) acc cc ri
      = (talking_loop_ms 4294967000 480 320 (fun _ => 58) fuel (acc + 936) (cc + 1)
          (ri + 2)).map (fun x => 936 + x) := by
  have hU : U32 = 4294967296 := rfl
  have h := talking_loop_ms_pause 4294967000 480 320 (fun _ => 58) fuel acc cc ri
  simp only [wrap_run_jitter.1, wrap_run_jitter.2] at h
  have e0 : u32_add 490 346 = 836 := by decide
  have e1 : u32_add acc 490 = acc + 490 := u32_add_small _ _ (by omega)
  have e2 : u32_add (acc + 490) 346 = acc + 836 := u32_add_small _ _ (by omega)
  have e3 : u32_add acc 836 = acc + 836 := u32_add_small _ _ (by omega)
  have e4 : u32_add (acc + 836) 100 = acc + 936 := u32_add_small _ _ (by omega)
  rw [e0, e1, e2, e3, e4] at h
  exact h (by omega) (by omega) ⟨h2, h1⟩

/-- In the run below, four cycles and the pause after them add 3444 ms. -/
theorem wrap_run_block (fuel acc cc ri : Nat) (h1 : acc + 3444 < 4294967000)
    (h2 : cc % 4 = 0) :
    talking_loop_ms 4294967000 480 320 (fun _ => 58) (fuel + 4) acc cc ri
      = (talking_loop_ms 4294967000 480 320 (fun _ => 58) fuel (acc + 3444) (cc + 4)
          (ri + 8)).map (fun x => 3444 + x) := by
  rw [wrap_run_cycle (fuel + 3) acc cc ri (by omega) (by omega),
    wrap_run_cycle (fuel + 2) (acc + 836) (cc + 1) (ri + 2) (by omega) (by omega),
    wrap_run_cycle (fuel + 1) (acc + 836 + 836) (cc + 1 + 1) (ri + 2 + 2) (by omega)
      (by omega),
    wrap_run_pause fuel (acc + 836 + 836 + 836) (cc + 1 + 1 + 1) (ri + 2 + 2 + 2) (by omega)
      (by omega)]
  simp only [Option.map_map]
  have ea : acc + 836 + 836 + 836 + 936 = acc + 3444 := by omega
  rw [ea]
  congr 1
  funext x
  simp only [Function.comp]
  omega

/-- In the run below, `k` blocks in a row add `3444 * k` ms. -/
theorem wrap_run_blocks (k : Nat) :
    ∀ fuel acc cc ri : Nat, acc + 3444 * k < 4294967000 → cc % 4 = 0 →
      talking_loop_ms 4294967000 480 320 (fun _ => 58) (fuel + 4 * k) acc cc ri
        = (talking_loop_ms 4294967000 480 320 (fun _ => 58) fuel (acc + 3444 * k)
            (cc + 4 * k) (ri + 8 * k)).map (fun x => 3444 * k + x) := by
  induction k with
  | zero =>
    intro fuel acc cc ri _ _
    simp
  | succ k ih =>
    intro fuel acc cc ri h1 h2
    have ef : fuel + 4 * (k + 1) = (fuel + 4 * k) + 4 := by omega
    rw [ef, wrap_run_block (fuel + 4 * k) acc cc ri (by omega) h2,
      ih fuel (acc + 3444) (cc + 4) (ri + 8) (by omega) (by omega)]
    simp only [Option.map_map]
    have ea : acc + 3444 + 3444 * k = acc + 3444 * (k + 1) := by omega
    have ec : cc + 4 + 4 * k = cc + 4 * (k + 1) := by omega
    have er : ri + 8 + 8 * k = ri + 8 * (k + 1) := by omega
    rw [ea, ec, er]
    congr 1
    funext x
    simp only [Function.comp]
    omega

/-- The run of the loop for `total_duration_ms = 4294967000`, a cycle of 800 ms and
`rand()` always 58: 1247086 blocks, three cycles, then a cycle whose fit test wraps
(`4294966692 + 836` is 232 modulo `2^32`) and its pause, 1247086 more blocks, two cycles
and the final frame. The loop ends after 9976695 iterations and the durations pushed sum
to `4294967000 + 2^32`. -/
theorem wrap_run_total :
    talking_loop_ms 4294967000 480 320 (fun _ => 58) 9976695 0 0 0
      = some (4294967000 + 4294967296) := by
  have hF : ∀ cc ri : Nat,
      talking_loop_ms 4294967000 480 320 (fun _ => 58) 1 4294966188 cc ri = some 812 := by
    intro cc ri
    have h := talking_loop_ms_final 4294967000 480 320 (fun _ => 58) 0 4294966188 cc ri
    simp only [wrap_run_jitter.1, wrap_run_jitter.2] at h
    have e : u32_sub 4294967000 4294966188 = 812 := by decide
    rw [e] at h
    exact h (by decide) (by decide) (by decide)
  have h2 : ∀ cc ri : Nat, cc % 4 = 1 →
      talking_loop_ms 4294967000 480 320 (fun _ => 58) 2 4294965352 cc ri = some 1648 := by
    intro cc ri hc
    rw [wrap_run_cycle 1 4294965352 cc ri (by decide) (by omega), hF]
    rfl
  have h3 : ∀ cc ri : Nat, cc % 4 = 0 →
      talking_loop_ms 4294967000 480 320 (fun _ => 58) 3 4294964516 cc ri = some 2484 := by
    intro cc ri hc
    rw [wrap_run_cycle 2 4294964516 cc ri (by decide) (by omega), h2 _ _ (by omega)]
    rfl
  have h4 : ∀ cc ri : Nat, cc % 4 = 0 →
      talking_loop_ms 4294967000 480 320 (fun _ => 58) 4988347 332 cc ri
        = some 4294966668 := by
    intro cc ri hc
    have h := wrap_run_blocks 1247086 3 332 cc ri (by decide) hc
    have e1 : 3 + 4 * 1247086 = 4988347 := by decide
    have e2 : 332 + 3444 * 1247086 = 4294964516 := by decide
    rw [e1, e2] at h
    rw [h, h3 _ _ (by omega)]
    rfl
  have h5 : ∀ cc ri : Nat, cc % 4 = 3 →
      talking_loop_ms 4294967000 480 320 (fun _ => 58) 4988348 4294966692 cc ri
        = some 4294967604 := by
    intro cc ri hc
    have h := talking_loop_ms_pause 4294967000 480 320 (fun _ => 58) 4988347 4294966692
      cc ri
    simp only [wrap_run_jitter.1, wrap_run_jitter.2] at h
    have e1 : u32_add (u32_add 4294966692 490) 346 = 232 := by decide
    have e2 : u32_add (u32_add 4294966692 (u32_add 490 346)) 100 = 332 := by decide
    rw [e1, e2] at h
    rw [h (by decide) (by decide) ⟨by omega, by decide⟩, h4 _ _ (by omega)]
    rfl
  have h6 : ∀ cc ri : Nat, cc % 4 = 0 →
      talking_loop_ms 4294967000 480 320 (fun _ => 58) 4988351 4294964184 cc ri
        = some 4294970112 := by
    intro cc ri hc
    rw [wrap_run_cycle 4988350 4294964184 cc ri (by decide) (by omega),
      wrap_run_cycle 4988349 (4294964184 + 836) (cc + 1) (ri + 2) (by decide) (by omega),
      wrap_run_cycle 4988348 (4294964184 + 836 + 836) (cc + 1 + 1) (ri + 2 + 2) (by decide)
        (by omega)]
    have e : 4294964184 + 836 + 836 + 836 = 4294966692 := by decide
    rw [e, h5 _ _ (by omega)]
    rfl
  have h := wrap_run_blocks 1247086 4988351 0 0 0 (by decide) (by decide)
  have e1 : 4988351 + 4 * 1247086 = 9976695 := by decide
  have e2 : 0 + 3444 * 1247086 = 4294964184 := by decide
  rw [e1, e2] at h
  rw [h, h6 _ _ (by decide)]
  rfl

/-- C4 (the code departs from the claim): for the text `a`, `total_duration_ms =
4294967000` (what `talking_logic` passes for a duration of 4294967 s), a cycle of 800 ms
(`mouth_speed = 10.0`) and `rand()` always 58, `setup_talking_animation` returns after
9976695 iterations with frames whose durations sum to `total_duration_ms + 2^32`: the
32-bit sum in the fit test wraps once. -/
theorem setup_talking_animation_exceeds_total :
    ∃ frames, setup_talking_animation (ascii "a") 4294967000 2857 (0 : Nat) 1
        (fun _ => 58) 9976695 = some frames ∧
      scheduled_ms frames = 4294967000 + 4294967296 ∧
      ¬ scheduled_ms frames ≤ 4294967000 := by
  have h := wrap_run_total
  unfold talking_loop_ms at h
  have e : setup_talking_animation (ascii "a") 4294967000 2857 (0 : Nat) 1 (fun _ => 58)
      9976695 = talking_loop 4294967000 480 320 (0 : Nat) 1 (fun _ => 58) 9976695 0 0 0 := by
    unfold setup_talking_animation
    rw [if_neg (by decide)]
    rfl
  rw [e]
  cases hl : talking_loop 4294967000 480 320 (0 : Nat) 1 (fun _ => 58) 9976695 0 0 0 with
  | none => rw [hl] at h; cases h
  | some frames =>
    rw [hl] at h
    simp only [Option.map_some', Option.some.injEq] at h
    exact ⟨frames, rfl, h, by omega⟩

/-! ### Dispatcher -/

/-- A numeric field that is absent or parsable gives a value. -/
theorem stod_field_some (stod : CppString → Option ℚ) (command : StrMap) (key : CppString)
    (old : ℚ) (h : ∀ v, map_find command key = some v → stod v ≠ none) :
    ∃ x, stod_field stod command key old = some x := by
  unfold stod_field
  cases hm : map_find command key with
  | none => exact ⟨old, rfl⟩
  | some v =>
    cases hs : stod v with
    | none => exact absurd hs (h v hm)
    | some x => exact ⟨x, hs⟩

/-- C9: a decoded command that has the key `emotion` and whose numeric fields parse is
applied, and afterwards the current emotion is the commanded value if that is one of the
nine known names, and `neutral` for every other value. -/
theorem apply_command_sets_emotion (stod : CppString → Option ℚ) (g : Globals)
    (command : StrMap) (e : CppString)
    (he : map_find command (ascii "emotion") = some e)
    (hn : ∀ key v, key ∈ [ascii "duration", ascii "intensity", ascii "mouth_speed",
        ascii "anim_duration"] → map_find command key = some v → stod v ≠ none) :
    ∃ g1, apply_command stod g command = .ok g1 ∧
      g1.current_emotion =
        if e ∈ [ascii "neutral", ascii "smile", ascii "smile_love", ascii "embarrassed",
          ascii "scary", ascii "happy", ascii "sad", ascii "surprise", ascii "talking"]
        then e else ascii "neutral" := by
  obtain ⟨d, hd⟩ := stod_field_some stod command (ascii "duration") g.current_duration
    (fun v => hn _ v (by simp))
  obtain ⟨i, hi⟩ := stod_field_some stod command (ascii "intensity") g.current_intensity
    (fun v => hn _ v (by simp))
  obtain ⟨m, hm⟩ := stod_field_some stod command (ascii "mouth_speed") g.current_mouth_speed
    (fun v => hn _ v (by simp))
  obtain ⟨a, ha⟩ := stod_field_some stod command (ascii "anim_duration") g.anim_duration
    (fun v => hn _ v (by simp))
  unfold apply_command
  rw [he]
  simp only [hd, hi, hm, ha]
  exact ⟨_, rfl, rfl⟩

/-- C9 at a command that names an unknown emotion and carries a parsable duration. -/
theorem apply_command_sets_emotion_witness :
    ∃ g1, apply_command stod_plain (main_init 0 0)
        (parse_json (ascii "\x7b\"emotion\":\"dance\",\"duration\":\"3.5\"\x7d")) = .ok g1 ∧
      g1.current_emotion =
        if ascii "dance" ∈ [ascii "neutral", ascii "smile", ascii "smile_love",
          ascii "embarrassed", ascii "scary", ascii "happy", ascii "sad", ascii "surprise",
          ascii "talking"]
        then ascii "dance" else ascii "neutral" :=
  apply_command_sets_emotion stod_plain (main_init 0 0)
    (parse_json (ascii "\x7b\"emotion\":\"dance\",\"duration\":\"3.5\"\x7d")) (ascii "dance")
    (by decide)
    (by
      have hp : parse_json (ascii "\x7b\"emotion\":\"dance\",\"duration\":\"3.5\"\x7d")
          = [(ascii "duration", ascii "3.5"), (ascii "emotion", ascii "dance")] := by decide
      intro key v hk hv
      rw [hp] at hv
      simp only [List.mem_cons, List.mem_singleton, List.not_mem_nil, or_false] at hk
      rcases hk with rfl | rfl | rfl | rfl
      · have : v = ascii "3.5" := by
          have h2 : map_find [(ascii "duration", ascii "3.5"), (ascii "emotion", ascii "dance")]
              (ascii "duration") = some (ascii "3.5") := by decide
          rw [h2] at hv
          exact (Option.some.inj hv).symm
        rw [this]
        decide!
      · have h2 : map_find [(ascii "duration", ascii "3.5"), (ascii "emotion", ascii "dance")]
            (ascii "intensity") = none := by decide
        rw [h2] at hv
        cases hv
      · have h2 : map_find [(ascii "duration", ascii "3.5"), (ascii "emotion", ascii "dance")]
            (ascii "mouth_speed") = none := by decide
        rw [h2] at hv
        cases hv
      · have h2 : map_find [(ascii "duration", ascii "3.5"), (ascii "emotion", ascii "dance")]
            (ascii "anim_duration") = none := by decide
        rw [h2] at hv
        cases hv)

/-- Every cell occurs in the loop order. -/
theorem mem_matrix_cells (rc : Fin 12 × Fin 12) : rc ∈ matrix_cells := by
  unfold matrix_cells
  simp only [List.mem_flatMap, List.mem_map, List.mem_finRange, true_and]
  exact ⟨rc.1, rc.2, rfl⟩

/-- A rejected call changes nothing; an accepted call sets `matrix_initialized`. -/
theorem draw_matrix_initialized (st : DrawState) (a : DrawArgs) :
    (draw_matrix st a).1.matrix_initialized
      = (st.matrix_initialized || draw_accepted st a) := by
  unfold draw_matrix draw_accepted
  by_cases h : a.force_redraw = false ∧
      u32_sub a.current_time st.last_draw_time < 1000 / ANIMATION_FPS
  · rw [if_pos h]
    simp [h.1, h.2]
  · rw [if_neg h]
    simp only [not_and, not_lt] at h
    by_cases hf : a.force_redraw = false
    · have := h hf
      simp [hf, Nat.not_lt.mpr this]
    · simp [hf]

/-- Along a run, `matrix_initialized` records whether a call has been accepted. -/
theorem draw_run_initialized (calls : List DrawArgs) (st : DrawState) :
    (draw_run st calls).matrix_initialized
      = (st.matrix_initialized || any_accepted st calls) := by
  induction calls generalizing st with
  | nil => simp [draw_run, any_accepted]
  | cons a later ih =>
    have h := ih (draw_matrix st a).1
    unfold draw_run at h ⊢
    simp only [List.foldl_cons, any_accepted]
    rw [h, draw_matrix_initialized, Bool.or_assoc]

/-- C11: for every accepted call of `draw_matrix` in a run from the initial statics: if no
earlier call was accepted (first call) or `force_redraw` is set, the surface is cleared
to background first and exactly the cells equal to 1 are painted, in foreground;
otherwise no clear is issued and a cell is painted if and only if its value differs from
the previously painted grid, foreground when the new value is 1 and background
otherwise; afterwards the previous-grid snapshot is the new grid. -/
theorem draw_matrix_accepted_call (calls : List DrawArgs) (a : DrawArgs)
    (hacc : draw_accepted (draw_run draw_init calls) a = true) :
    ((any_accepted draw_init calls = false ∨ a.force_redraw = true) →
      (draw_matrix (draw_run draw_init calls) a).2.head? = some (.fill .STYLE_BG) ∧
      ∀ op, op ∈ (draw_matrix (draw_run draw_init calls) a).2 ↔
        (op = .fill .STYLE_BG ∨
          ∃ row col, a.matrix row col = 1 ∧ op = .cell row col a.pixel_size .STYLE_FACE)) ∧
    (¬ (any_accepted draw_init calls = false ∨ a.force_redraw = true) →
      ∀ op, op ∈ (draw_matrix (draw_run draw_init calls) a).2 ↔
        ∃ row col, a.matrix row col ≠ (draw_run draw_init calls).prev_matrix row col ∧
          op = .cell row col a.pixel_size
            (if a.matrix row col = 1 then .STYLE_FACE else .STYLE_BG)) ∧
    (draw_matrix (draw_run draw_init calls) a).1.prev_matrix = a.matrix := by
  have hinit : (draw_run draw_init calls).matrix_initialized = any_accepted draw_init calls := by
    rw [draw_run_initialized]
    simp [draw_init]
  generalize draw_run draw_init calls = st at hacc hinit ⊢
  have hrej : ¬ (a.force_redraw = false ∧
      u32_sub a.current_time st.last_draw_time < 1000 / ANIMATION_FPS) := by
    intro h
    simp [draw_accepted, h.1, h.2] at hacc
  unfold draw_matrix
  rw [if_neg hrej]
  rw [← hinit]
  refine ⟨fun hfull => ?_, fun hdiff => ?_, rfl⟩
  · dsimp only
    rw [if_pos hfull]
    refine ⟨rfl, fun op => ?_⟩
    simp only [List.mem_cons, List.mem_filterMap]
    constructor
    · rintro (h | ⟨rc, -, h⟩)
      · exact Or.inl h
      · by_cases h1 : a.matrix rc.1 rc.2 = 1
        · rw [if_pos h1] at h
          exact Or.inr ⟨rc.1, rc.2, h1, (Option.some.inj h).symm⟩
        · rw [if_neg h1] at h
          cases h
    · rintro (h | ⟨row, col, h1, h2⟩)
      · exact Or.inl h
      · exact Or.inr ⟨(row, col), mem_matrix_cells _, by simp [h1, h2]⟩
  · dsimp only
    rw [if_neg hdiff]
    intro op
    simp only [List.mem_filterMap]
    constructor
    · rintro ⟨rc, -, h⟩
      by_cases h1 : a.matrix rc.1 rc.2 ≠ st.prev_matrix rc.1 rc.2
      · rw [if_pos h1] at h
        exact ⟨rc.1, rc.2, h1, (Option.some.inj h).symm⟩
      · rw [if_neg h1] at h
        cases h
    · rintro ⟨row, col, h1, h2⟩
      exact ⟨(row, col), mem_matrix_cells _, by simp [h1, h2]⟩

/-- C11 at the second call of a run: the diagonal bitmap at 100 ms, then the empty bitmap
at 200 ms. -/
theorem draw_matrix_accepted_call_witness :
    draw_accepted (draw_run draw_init [sample_draw]) sample_clear = true ∧
    ((any_accepted draw_init [sample_draw] = false ∨ sample_clear.force_redraw = true) →
      (draw_matrix (draw_run draw_init [sample_draw]) sample_clear).2.head?
        = some (.fill .STYLE_BG) ∧
      ∀ op, op ∈ (draw_matrix (draw_run draw_init [sample_draw]) sample_clear).2 ↔
        (op = .fill .STYLE_BG ∨
          ∃ row col, sample_clear.matrix row col = 1 ∧
            op = .cell row col sample_clear.pixel_size .STYLE_FACE)) ∧
    (¬ (any_accepted draw_init [sample_draw] = false ∨ sample_clear.force_redraw = true) →
      ∀ op, op ∈ (draw_matrix (draw_run draw_init [sample_draw]) sample_clear).2 ↔
        ∃ row col, sample_clear.matrix row col
            ≠ (draw_run draw_init [sample_draw]).prev_matrix row col ∧
          op = .cell row col sample_clear.pixel_size
            (if sample_clear.matrix row col = 1 then .STYLE_FACE else .STYLE_BG)) ∧
    (draw_matrix (draw_run draw_init [sample_draw]) sample_clear).1.prev_matrix
      = sample_clear.matrix :=
  ⟨by decide, draw_matrix_accepted_call [sample_draw] sample_clear (by decide)⟩

/-! ### StreamFramer: lines, bounds, resets -/

/-- A plain byte is appended to the buffer as long as the buffer stays within 2048 bytes. -/
theorem read_command_byte_plain (s : FramerState) (c : Nat) (hc : plain_byte c)
    (hlen : s.buffer.length + 1 ≤ 2048) :
    read_command_byte s c = .go { s with buffer := s.buffer ++ [c] } := by
  obtain ⟨h1, h2, h3, h4⟩ := hc
  unfold read_command_byte
  simp only [if_neg h3, if_neg h4, if_neg h1, h2, false_and, if_false]
  rw [if_neg]
  simp only [List.length_append, List.length_singleton]
  omega

/-- A run of plain bytes is appended to the buffer. -/
theorem read_command_plain_run (body : CppString) :
    ∀ (s : FramerState) (tail : List Nat), (∀ c ∈ body, plain_byte c) →
      s.buffer.length + body.length ≤ 2048 →
      read_command s (body ++ tail) = read_command { s with buffer := s.buffer ++ body } tail := by
  induction body with
  | nil => intro s tail _ _; simp
  | cons c rest ih =>
    intro s tail hp hlen
    simp only [List.length_cons] at hlen
    have hc := hp c (List.mem_cons_self _ _)
    rw [List.cons_append, read_command, read_command_byte_plain s c hc (by omega)]
    dsimp only
    rw [ih _ tail (fun x hx => hp x (List.mem_cons_of_mem _ hx))
      (by simp only [List.length_append, List.length_singleton]; omega)]
    simp

/-- The loop of `read_command` on a first byte. -/
theorem read_command_cons (s : FramerState) (c : Nat) (rest : List Nat) :
    read_command s (c :: rest)
      = match read_command_byte s c with
        | .ret cmd => (cmd, framer_reset, rest)
        | .go s1 => read_command s1 rest := by
  rw [read_command]

/-- One complete line at the head of the input, read from the reset state: the call
returns the line and leaves what follows the line-feed unread. -/
theorem read_command_line (body : CppString) (rest : List Nat)
    (hp : ∀ c ∈ body, plain_byte c) (hlen : (braced body).length ≤ 2048) :
    read_command framer_reset (braced body ++ CH_LF :: rest)
      = (braced body, framer_reset, rest) := by
  simp only [braced, List.length_cons, List.length_append, List.length_singleton,
    List.length_nil] at hlen
  have h1 : read_command_byte framer_reset CH_LBRACE
      = .go { buffer := [CH_LBRACE], in_json := true, brace_count := 1 } := by decide
  have hl : ¬ (([CH_LBRACE] ++ body ++ [CH_RBRACE]).length > 2048) := by
    simp only [List.length_append, List.length_singleton]
    omega
  have h2 : read_command_byte
      { buffer := [CH_LBRACE] ++ body, in_json := true, brace_count := 1 } CH_RBRACE
      = .go { buffer := [CH_LBRACE] ++ body ++ [CH_RBRACE], in_json := true,
              brace_count := 0 } := by
    have e1 : ¬ (CH_RBRACE = CH_CR) := by decide
    have e2 : ¬ (CH_RBRACE = CH_LF) := by decide
    have e3 : ¬ (CH_RBRACE = CH_LBRACE) := by decide
    unfold read_command_byte
    simp only [if_neg e1, if_neg e2, if_neg e3, and_self, if_true, if_neg hl]
    rfl
  have h3 : read_command_byte
      { buffer := [CH_LBRACE] ++ body ++ [CH_RBRACE], in_json := true, brace_count := 0 }
      CH_LF = .ret ([CH_LBRACE] ++ body ++ [CH_RBRACE]) := by
    unfold read_command_byte
    rw [if_neg (by decide), if_pos rfl, if_pos (by simp [framer_complete])]
  unfold braced
  simp only [List.cons_append, List.append_assoc, List.singleton_append, List.nil_append]
  rw [read_command_cons, h1]
  dsimp only
  rw [read_command_plain_run body _ _ hp (by simp; omega)]
  dsimp only
  rw [read_command_cons, h2]
  dsimp only
  rw [read_command_cons, h3]
  simp

/-- C12: from the reset state, with two complete lines `L1 LF L2 LF` in one batch, each
`'{'`, a body without braces, CR or LF, then `'}'`, and each at most 2048 bytes, the first
call returns exactly `L1` and leaves `L2 LF` unread, and the next call returns exactly
`L2`. -/
theorem read_command_two_lines (body1 body2 : CppString)
    (hp1 : ∀ c ∈ body1, plain_byte c) (hp2 : ∀ c ∈ body2, plain_byte c)
    (hl1 : (braced body1).length ≤ 2048) (hl2 : (braced body2).length ≤ 2048) :
    read_command framer_reset (braced body1 ++ CH_LF :: (braced body2 ++ [CH_LF]))
      = (braced body1, framer_reset, braced body2 ++ [CH_LF]) ∧
    read_command framer_reset (braced body2 ++ [CH_LF]) = (braced body2, framer_reset, []) ∧
    poll_run framer_reset [] [braced body1 ++ CH_LF :: (braced body2 ++ [CH_LF]), []]
      = [braced body1, braced body2] := by
  have a := read_command_line body1 (braced body2 ++ [CH_LF]) hp1 hl1
  have b := read_command_line body2 [] hp2 hl2
  refine ⟨a, b, ?_⟩
  simp only [poll_run, List.nil_append, List.append_nil, a, b]

/-- C12 at the two lines with bodies `a:1` and `b:2`. -/
theorem read_command_two_lines_witness :
    read_command framer_reset
        (braced (ascii "a:1") ++ CH_LF :: (braced (ascii "b:2") ++ [CH_LF]))
      = (braced (ascii "a:1"), framer_reset, braced (ascii "b:2") ++ [CH_LF]) ∧
    read_command framer_reset (braced (ascii "b:2") ++ [CH_LF])
      = (braced (ascii "b:2"), framer_reset, []) ∧
    poll_run framer_reset []
        [braced (ascii "a:1") ++ CH_LF :: (braced (ascii "b:2") ++ [CH_LF]), []]
      = [braced (ascii "a:1"), braced (ascii "b:2")] :=
  read_command_two_lines (ascii "a:1") (ascii "b:2")
    (by simp only [plain_byte]; decide) (by simp only [plain_byte]; decide)
    (by decide) (by decide)

/-- The loop body keeps the buffer within 2048 bytes, and a returned message is the
buffer. -/
theorem read_command_byte_bounded (s : FramerState) (c : Nat) (h : s.buffer.length ≤ 2048) :
    (framer_after_byte s c).buffer.length ≤ 2048 ∧
      ∀ cmd, read_command_byte s c = .ret cmd → cmd = s.buffer := by
  unfold framer_after_byte read_command_byte
  by_cases a1 : c = CH_CR
  · simp [a1, h]
  · rw [if_neg a1]
    by_cases a2 : c = CH_LF
    · rw [if_pos a2]
      by_cases a3 : framer_complete s = true
      · simp [a3, framer_reset]
      · rw [if_neg a3]
        by_cases a4 : s.buffer ≠ []
        · simp [a4, framer_reset]
        · simp only [if_neg a4]
          exact ⟨h, by intro cmd hc; cases hc⟩
    · rw [if_neg a2]
      dsimp only
      split_ifs <;> simp_all [framer_reset]

/-- Along a call of `read_command` the buffer stays within 2048 bytes, and so does the
returned message. -/
theorem read_command_bounded (input : List Nat) :
    ∀ s : FramerState, s.buffer.length ≤ 2048 →
      (read_command s input).1.length ≤ 2048 ∧
        (read_command s input).2.1.buffer.length ≤ 2048 := by
  induction input with
  | nil =>
    intro s h
    unfold read_command
    split_ifs
    · exact ⟨h, by simp [framer_reset]⟩
    · exact ⟨by simp, h⟩
  | cons c rest ih =>
    intro s h
    obtain ⟨h1, h2⟩ := read_command_byte_bounded s c h
    rw [read_command_cons]
    cases hb : read_command_byte s c with
    | ret cmd =>
      dsimp only
      rw [h2 cmd hb]
      exact ⟨h, by simp [framer_reset]⟩
    | go s1 =>
      dsimp only
      simp only [framer_after_byte, hb] at h1
      exact ih s1 h1

/-- Along successive polls every returned message has at most 2048 bytes. -/
theorem poll_run_bounded (arrivals : List (List Nat)) :
    ∀ (s : FramerState) (queue : List Nat), s.buffer.length ≤ 2048 →
      ∀ cmd ∈ poll_run s queue arrivals, cmd.length ≤ 2048 := by
  induction arrivals with
  | nil => intro s queue _ cmd hc; simp [poll_run] at hc
  | cons batch later ih =>
    intro s queue h cmd hc
    obtain ⟨h1, h2⟩ := read_command_bounded (queue ++ batch) s h
    unfold poll_run at hc
    rcases hr : read_command s (queue ++ batch) with ⟨m, s1, rest⟩
    rw [hr] at hc h1 h2
    simp only [List.mem_cons] at hc
    rcases hc with hc | hc
    · rw [hc]; exact h1
    · exact ih s1 rest h2 cmd hc

/-- The statics after any sequence of events from the reset state hold at most 2048
buffered bytes. -/
theorem framer_after_bounded (events : List FramerEvent) :
    ∀ s : FramerState, s.buffer.length ≤ 2048 →
      (framer_after s events).buffer.length ≤ 2048 := by
  induction events with
  | nil => intro s h; exact h
  | cons e later ih =>
    intro s h
    unfold framer_after
    rw [List.foldl_cons]
    apply ih
    cases e with
    | byte c => exact (read_command_byte_bounded s c h).1
    | timeout =>
      unfold framer_after_event
      split_ifs
      · simp [framer_reset]
      · exact h

/-- C13: for every byte stream, cut into drains in any way, the buffer holds at most
2048 bytes after each byte, every returned message has at most 2048 bytes, and a byte
whose appending exceeds 2048 empties the buffer, resets `in_json` and `brace_count` and
returns no message. -/
theorem framer_buffer_bounded (events : List FramerEvent) (arrivals : List (List Nat))
    (c : Nat) :
    (framer_after framer_reset events).buffer.length ≤ 2048 ∧
    (framer_after_byte (framer_after framer_reset events) c).buffer.length ≤ 2048 ∧
    (∀ cmd, read_command_byte (framer_after framer_reset events) c = .ret cmd →
      cmd.length ≤ 2048) ∧
    (∀ cmd ∈ poll_run framer_reset [] arrivals, cmd.length ≤ 2048) ∧
    (c ≠ CH_CR → c ≠ CH_LF → (framer_after framer_reset events).buffer.length = 2048 →
      read_command_byte (framer_after framer_reset events) c = .go framer_reset) := by
  have h0 : framer_reset.buffer.length ≤ 2048 := by simp [framer_reset]
  have hs := framer_after_bounded events framer_reset h0
  obtain ⟨b1, b2⟩ := read_command_byte_bounded (framer_after framer_reset events) c hs
  refine ⟨hs, b1, ?_, poll_run_bounded arrivals framer_reset [] h0, ?_⟩
  · intro cmd hc
    rw [b2 cmd hc]
    exact hs
  · intro a1 a2 hfull
    unfold read_command_byte
    rw [if_neg a1, if_neg a2]
    dsimp only
    rw [if_pos]
    split_ifs <;> simp only [List.length_append, List.length_singleton] <;> omega

/-- A carriage return is skipped. -/
theorem read_command_byte_cr (s : FramerState) : read_command_byte s CH_CR = .go s := by
  unfold read_command_byte
  rw [if_pos rfl]

/-- The loop body preserves the invariant. -/
theorem framer_inv_byte (s : FramerState) (c : Nat) (h : framer_inv s) :
    framer_inv (framer_after_byte s c) := by
  obtain ⟨h1, h2⟩ := h
  unfold framer_after_byte read_command_byte framer_inv
  by_cases a1 : c = CH_CR
  · simp only [if_pos a1]
    exact ⟨h1, h2⟩
  · rw [if_neg a1]
    by_cases a2 : c = CH_LF
    · rw [if_pos a2]
      split_ifs
      · simp [framer_reset]
      · simp [framer_reset]
      · exact ⟨h1, h2⟩
    · rw [if_neg a2]
      dsimp only
      split_ifs <;> simp_all [framer_reset]

/-- Every event preserves the invariant. -/
theorem framer_inv_after (events : List FramerEvent) :
    ∀ s : FramerState, framer_inv s → framer_inv (framer_after s events) := by
  induction events with
  | nil => intro s h; exact h
  | cons e later ih =>
    intro s h
    unfold framer_after
    rw [List.foldl_cons]
    apply ih
    cases e with
    | byte c => exact framer_inv_byte s c h
    | timeout =>
      unfold framer_after_event
      split_ifs
      · simp [framer_inv, framer_reset]
      · exact h

/-- The statics that a call of `read_command` leaves are those after a sequence of events:
the bytes it consumed, and the timeout when it drained the input. -/
theorem read_command_state_after (input : List Nat) :
    ∀ s : FramerState, ∃ events, (read_command s input).2.1 = framer_after s events := by
  induction input with
  | nil =>
    intro s
    refine ⟨[.timeout], ?_⟩
    unfold read_command framer_after
    simp only [List.foldl_cons, List.foldl_nil, framer_after_event]
    split_ifs <;> rfl
  | cons c rest ih =>
    intro s
    rw [read_command_cons]
    cases hb : read_command_byte s c with
    | ret cmd =>
      refine ⟨[.byte c], ?_⟩
      simp [framer_after, framer_after_event, framer_after_byte, hb]
    | go s1 =>
      obtain ⟨events, he⟩ := ih s1
      refine ⟨.byte c :: events, ?_⟩
      simp only [framer_after, List.foldl_cons, framer_after_event, framer_after_byte, hb]
      exact he

/-- C15: in every framer state reachable from the initial state by a byte stream cut
into drains in any way, message mode implies a non-empty buffer and `brace_count` is 0
outside message mode; and after a line-feed byte is processed the framer is back in its
initial state, whether or not a message was emitted. -/
theorem framer_reset_after_newline (events : List FramerEvent) :
    framer_inv (framer_after framer_reset events) ∧
      framer_after_byte (framer_after framer_reset events) CH_LF = framer_reset := by
  have hinv : framer_inv (framer_after framer_reset events) :=
    framer_inv_after events framer_reset (by simp [framer_inv, framer_reset])
  refine ⟨hinv, ?_⟩
  obtain ⟨h1, h2⟩ := hinv
  generalize framer_after framer_reset events = s at h1 h2
  unfold framer_after_byte read_command_byte
  rw [if_neg (by decide), if_pos rfl]
  by_cases a3 : framer_complete s = true
  · rw [if_pos a3]
  · rw [if_neg a3]
    by_cases a4 : s.buffer ≠ []
    · rw [if_pos a4]
    · rw [if_neg a4]
      simp only [ne_eq, not_not] at a4
      have hj : s.in_json = false := by
        cases hx : s.in_json with
        | false => rfl
        | true => exact absurd a4 (h1 hx)
      have hb := h2 hj
      cases s
      simp only at a4 hj hb
      simp [framer_reset, a4, hj, hb]

/-- Removing the carriage returns of the input changes neither the returned message nor
the statics of a call, and the unread rest is the stripped rest. -/
theorem read_command_strip_cr (input : List Nat) :
    ∀ s : FramerState, read_command s (strip_cr input)
      = ((read_command s input).1, (read_command s input).2.1,
          strip_cr (read_command s input).2.2) := by
  induction input with
  | nil => intro s; simp [strip_cr, read_command]; split_ifs <;> simp
  | cons c rest ih =>
    intro s
    by_cases hc : c = CH_CR
    · subst hc
      have e : strip_cr (CH_CR :: rest) = strip_cr rest := by
        simp [strip_cr]
      rw [e, read_command_cons s CH_CR rest, read_command_byte_cr]
      exact ih s
    · have e : strip_cr (c :: rest) = c :: strip_cr rest := by
        simp [strip_cr, hc]
      rw [e, read_command_cons s c rest, read_command_cons s c (strip_cr rest)]
      cases hb : read_command_byte s c with
      | ret cmd => rfl
      | go s1 => exact ih s1

/-- Successive polls of the stripped input return the same messages and end in the same
statics. -/
theorem poll_strip_cr (arrivals : List (List Nat)) :
    ∀ (s : FramerState) (queue : List Nat),
      poll_run s (strip_cr queue) (arrivals.map strip_cr) = poll_run s queue arrivals ∧
      (poll_final s (strip_cr queue) (arrivals.map strip_cr)).1
        = (poll_final s queue arrivals).1 := by
  induction arrivals with
  | nil => intro s queue; simp [poll_run, poll_final]
  | cons batch later ih =>
    intro s queue
    have e : strip_cr queue ++ strip_cr batch = strip_cr (queue ++ batch) := by
      simp [strip_cr]
    simp only [List.map_cons, poll_run, poll_final]
    rw [e, read_command_strip_cr]
    obtain ⟨i1, i2⟩ := ih (read_command s (queue ++ batch)).2.1
      (read_command s (queue ++ batch)).2.2
    exact ⟨by rw [i1], i2⟩

/-- The loop body returns only at a line-feed, with a complete buffer, and returns the
buffer. -/
theorem read_command_byte_ret (s : FramerState) (c : Nat) (cmd : CppString)
    (hb : read_command_byte s c = .ret cmd) :
    c = CH_LF ∧ framer_complete s = true ∧ cmd = s.buffer := by
  unfold read_command_byte at hb
  by_cases a1 : c = CH_CR
  · rw [if_pos a1] at hb; cases hb
  · rw [if_neg a1] at hb
    by_cases a2 : c = CH_LF
    · rw [if_pos a2] at hb
      by_cases a3 : framer_complete s = true
      · rw [if_pos a3] at hb
        simp only [ByteOutcome.ret.injEq] at hb
        exact ⟨a2, a3, hb.symm⟩
      · rw [if_neg a3] at hb
        split_ifs at hb
    · rw [if_neg a2] at hb
      dsimp only at hb
      split_ifs at hb

/-- The loop body puts no carriage return into the buffer. -/
theorem framer_after_byte_no_cr (s : FramerState) (c : Nat) (h : CH_CR ∉ s.buffer) :
    CH_CR ∉ (framer_after_byte s c).buffer := by
  unfold framer_after_byte read_command_byte
  by_cases a1 : c = CH_CR
  · simp only [if_pos a1]
    exact h
  · rw [if_neg a1]
    have hne : ¬ (CH_CR = c) := fun e => a1 e.symm
    by_cases a2 : c = CH_LF
    · rw [if_pos a2]
      split_ifs
      · simp [framer_reset]
      · simp [framer_reset]
      · exact h
    · rw [if_neg a2]
      dsimp only
      split_ifs <;> simp_all [framer_reset]

/-- A buffer without carriage returns stays so, and so are the returned messages. -/
theorem read_command_no_cr (input : List Nat) :
    ∀ s : FramerState, CH_CR ∉ s.buffer →
      CH_CR ∉ (read_command s input).1 ∧ CH_CR ∉ (read_command s input).2.1.buffer := by
  induction input with
  | nil =>
    intro s h
    unfold read_command
    split_ifs
    · exact ⟨h, by simp [framer_reset]⟩
    · exact ⟨by simp, h⟩
  | cons c rest ih =>
    intro s h
    have hn := framer_after_byte_no_cr s c h
    rw [read_command_cons]
    cases hb : read_command_byte s c with
    | ret cmd =>
      dsimp only
      rw [(read_command_byte_ret s c cmd hb).2.2]
      exact ⟨h, by simp [framer_reset]⟩
    | go s1 =>
      dsimp only
      simp only [framer_after_byte, hb] at hn
      exact ih s1 hn

/-- Along successive polls no returned message contains a carriage return. -/
theorem poll_run_no_cr (arrivals : List (List Nat)) :
    ∀ (s : FramerState) (queue : List Nat), CH_CR ∉ s.buffer →
      ∀ cmd ∈ poll_run s queue arrivals, CH_CR ∉ cmd := by
  induction arrivals with
  | nil => intro s queue _ cmd hc; simp [poll_run] at hc
  | cons batch later ih =>
    intro s queue h cmd hc
    obtain ⟨h1, h2⟩ := read_command_no_cr (queue ++ batch) s h
    unfold poll_run at hc
    rcases hr : read_command s (queue ++ batch) with ⟨m, s1, rest⟩
    rw [hr] at hc h1 h2
    simp only [List.mem_cons] at hc
    rcases hc with hc | hc
    · rw [hc]; exact h1
    · exact ih s1 rest h2 cmd hc

/-- C16: for every byte stream and chunking, the polls return the same messages and end
in the same framer state as on the stream with every carriage-return byte removed, and
no returned message contains a carriage-return byte. -/
theorem framer_ignores_cr (arrivals : List (List Nat)) :
    poll_run framer_reset [] (arrivals.map strip_cr) = poll_run framer_reset [] arrivals ∧
    (poll_final framer_reset [] (arrivals.map strip_cr)).1
      = (poll_final framer_reset [] arrivals).1 ∧
    ∀ cmd ∈ poll_run framer_reset [] arrivals, CH_CR ∉ cmd := by
  obtain ⟨h1, h2⟩ := poll_strip_cr arrivals framer_reset []
  have e : strip_cr [] = [] := rfl
  rw [e] at h1 h2
  exact ⟨h1, h2, poll_run_no_cr arrivals framer_reset [] (by simp [framer_reset])⟩

/-! ### CommandDecoder: tokens, quotes, braces -/

/-- The scan on a first character. -/
theorem parse_scan_cons (s : ParseState) (c : Nat) (rest : CppString) :
    parse_scan s (c :: rest) = parse_scan (parse_step s c) rest := rfl

/-- The scan over a concatenation. -/
theorem parse_scan_append (s : ParseState) (u v : CppString) :
    parse_scan s (u ++ v) = parse_scan (parse_scan s u) v := by
  unfold parse_scan
  rw [List.foldl_append]

/-- Outside quotes a token character is appended to the active buffer. -/
theorem parse_step_token (s : ParseState) (c : Nat) (hc : token_char c)
    (hs : s.in_string = false) : parse_step s c = parse_append s c := by
  obtain ⟨h1, h2, h3, h4, h5, h6, h7, h8, h9, h10⟩ := hc
  unfold parse_step
  simp only [hs, h1, h2, h3, h4, h5, h6, h7, h8, h9, h10, or_self, and_false, false_and,
    if_false, Bool.false_eq_true, ne_eq, not_false_eq_true, and_self, if_true]

/-- In key mode outside quotes a run of token characters goes to the key. -/
theorem parse_scan_key (t : CppString) :
    ∀ s : ParseState, s.in_string = false → s.in_key = true → (∀ c ∈ t, token_char c) →
      parse_scan s t = { s with key := s.key ++ t } := by
  induction t with
  | nil => intro s _ _ _; simp [parse_scan]
  | cons c rest ih =>
    intro s hs hk ht
    rw [parse_scan_cons, parse_step_token s c (ht c (List.mem_cons_self _ _)) hs]
    have e : parse_append s c = { s with key := s.key ++ [c] } := by
      unfold parse_append
      rw [if_pos hk]
    rw [e, ih { s with key := s.key ++ [c] } hs hk
      (fun x hx => ht x (List.mem_cons_of_mem _ hx))]
    simp

/-- In value mode outside quotes a run of token characters goes to the value. -/
theorem parse_scan_value (t : CppString) :
    ∀ s : ParseState, s.in_string = false → s.in_key = false → s.in_value = true →
      (∀ c ∈ t, token_char c) → parse_scan s t = { s with value := s.value ++ t } := by
  induction t with
  | nil => intro s _ _ _ _; simp [parse_scan]
  | cons c rest ih =>
    intro s hs hk hv ht
    rw [parse_scan_cons, parse_step_token s c (ht c (List.mem_cons_self _ _)) hs]
    have e : parse_append s c = { s with value := s.value ++ [c] } := by
      unfold parse_append
      rw [if_neg (by simp [hk]), if_pos hv]
    rw [e, ih { s with value := s.value ++ [c] } hs hk hv
      (fun x hx => ht x (List.mem_cons_of_mem _ hx))]
    simp

/-- The scan state in key mode with empty buffers and the map `m`. -/
theorem parse_scan_pair (m : StrMap) (k v : CppString)
    (hk : ∀ c ∈ k, token_char c) (hv : ∀ c ∈ v, token_char c) :
    parse_scan { result := m, key := [], value := [], in_key := true, in_value := false,
                 in_string := false, quote_char := 0 } (render_pair (k, v))
      = { result := m, key := k, value := v, in_key := false, in_value := true,
          in_string := false, quote_char := 0 } := by
  unfold render_pair
  rw [parse_scan_append, parse_scan_key k _ rfl rfl hk, parse_scan_cons]
  have e : parse_step
      { result := m, key := [] ++ k, value := [], in_key := true, in_value := false,
        in_string := false, quote_char := 0 } CH_COLON
      = { result := m, key := k, value := [], in_key := false, in_value := true,
          in_string := false, quote_char := 0 } := by
    simp [parse_step, parse_flush]
  rw [e, parse_scan_value v _ rfl rfl rfl hv]
  simp

/-- From key mode, the text of a pair of tokens leaves the pair in the buffers. -/
theorem parse_scan_render_pair (m : StrMap) (k v : CppString)
    (hk : ∀ c ∈ k, token_char c) (hv : ∀ c ∈ v, token_char c) :
    parse_scan (key_state m) (render_pair (k, v)) = value_state m k v :=
  parse_scan_pair m k v hk hv

/-- From key mode, the text of a non-empty list of pairs of tokens leaves the last pair in
the buffers and the earlier pairs in the map. -/
theorem parse_scan_render_pairs (pairs : List (CppString × CppString)) :
    ∀ (kv : CppString × CppString) (m : StrMap),
      (∀ p ∈ kv :: pairs, plain_token p.1 ∧ plain_token p.2) →
      ∃ m1 k v, parse_scan (key_state m) (render_pairs (kv :: pairs)) = value_state m1 k v ∧
        k ≠ [] ∧ v ≠ [] ∧
        map_assign m1 k v = (kv :: pairs).foldl (fun m p => map_assign m p.1 p.2) m := by
  induction pairs with
  | nil =>
    intro kv m h
    obtain ⟨⟨k1, k2⟩, ⟨v1, v2⟩⟩ := h kv (List.mem_cons_self _ _)
    exact ⟨m, kv.1, kv.2, parse_scan_render_pair m kv.1 kv.2 k2 v2, k1, v1, rfl⟩
  | cons kv2 rest ih =>
    intro kv m h
    obtain ⟨⟨k1, k2⟩, ⟨v1, v2⟩⟩ := h kv (List.mem_cons_self _ _)
    obtain ⟨m1, k, v, e, hk, hv, hm⟩ := ih kv2 (map_assign m kv.1 kv.2)
      (fun p hp => h p (List.mem_cons_of_mem _ hp))
    refine ⟨m1, k, v, ?_, hk, hv, ?_⟩
    · have e0 : render_pairs (kv :: kv2 :: rest)
          = render_pair (kv.1, kv.2) ++ CH_COMMA :: render_pairs (kv2 :: rest) := rfl
      rw [e0, parse_scan_append, parse_scan_render_pair m kv.1 kv.2 k2 v2, parse_scan_cons]
      have e1 : parse_step (value_state m kv.1 kv.2) CH_COMMA
          = key_state (map_assign m kv.1 kv.2) := by
        simp [parse_step, parse_flush, value_state, key_state, k1, v1]
      rw [e1, e]
    · rw [hm]
      rfl

/-- The opening brace takes the initial locals into key mode. -/
theorem parse_step_open : parse_step parse_init CH_LBRACE = key_state [] := by
  decide

/-- C17: for every list of pairs whose keys and values are non-empty tokens without
structural characters, quotes and whitespace, `parse_json` of `{k1:v1,...,kn:vn}` is the
map obtained by inserting the pairs in order into an empty map. -/
theorem parse_json_render_object (pairs : List (CppString × CppString))
    (h : ∀ p ∈ pairs, plain_token p.1 ∧ plain_token p.2) :
    parse_json (render_object pairs) = map_of_pairs pairs := by
  cases pairs with
  | nil => decide
  | cons kv rest =>
    obtain ⟨m1, k, v, e, hk, hv, hm⟩ := parse_scan_render_pairs rest kv [] h
    unfold parse_json render_object map_of_pairs
    rw [parse_scan_cons, parse_step_open, parse_scan_append, e, ← hm]
    simp [parse_scan, parse_step, parse_flush, value_state, hk, hv]

/-- C17 at three pairs, two of which have the same key. -/
theorem parse_json_render_object_witness :
    parse_json (render_object
        [(ascii "a", ascii "1"), (ascii "b", ascii "2"), (ascii "a", ascii "3")])
      = map_of_pairs [(ascii "a", ascii "1"), (ascii "b", ascii "2"), (ascii "a", ascii "3")] :=
  parse_json_render_object
    [(ascii "a", ascii "1"), (ascii "b", ascii "2"), (ascii "a", ascii "3")]
    (by simp only [plain_token, token_char]; decide)

/-- Inside quotes every character other than the closing quote is appended to the active
buffer. -/
theorem parse_step_quoted (s : ParseState) (c : Nat) (hs : s.in_string = true)
    (hc : c ≠ s.quote_char) : parse_step s c = parse_append s c := by
  have hq : ¬ (s.quote_char = c) := fun e => hc e.symm
  unfold parse_step
  simp only [hs, Bool.true_eq_false, false_and, if_false, false_or, hq, and_false, if_true]

/-- Inside quotes, in key mode, a run of characters without the quote goes to the key. -/
theorem parse_scan_quoted_key (t : CppString) :
    ∀ s : ParseState, s.in_string = true → s.in_key = true → s.quote_char ∉ t →
      parse_scan s t = { s with key := s.key ++ t } := by
  induction t with
  | nil => intro s _ _ _; simp [parse_scan]
  | cons c rest ih =>
    intro s hs hk ht
    simp only [List.mem_cons, not_or] at ht
    rw [parse_scan_cons, parse_step_quoted s c hs (fun e => ht.1 e.symm)]
    have e : parse_append s c = { s with key := s.key ++ [c] } := by
      unfold parse_append
      rw [if_pos hk]
    rw [e, ih { s with key := s.key ++ [c] } hs hk ht.2]
    simp

/-- Inside quotes, in value mode, a run of characters without the quote goes to the
value. -/
theorem parse_scan_quoted_value (t : CppString) :
    ∀ s : ParseState, s.in_string = true → s.in_key = false → s.in_value = true →
      s.quote_char ∉ t → parse_scan s t = { s with value := s.value ++ t } := by
  induction t with
  | nil => intro s _ _ _ _; simp [parse_scan]
  | cons c rest ih =>
    intro s hs hk hv ht
    simp only [List.mem_cons, not_or] at ht
    rw [parse_scan_cons, parse_step_quoted s c hs (fun e => ht.1 e.symm)]
    have e : parse_append s c = { s with value := s.value ++ [c] } := by
      unfold parse_append
      rw [if_neg (by simp [hk]), if_pos hv]
    rw [e, ih { s with value := s.value ++ [c] } hs hk hv ht.2]
    simp

/-- C18: for a non-empty key and a non-empty value that do not contain the enclosing quote
character `q` (double or single quote), `parse_json` of the quoted pair in braces is
exactly the one-entry map from the key to the value: the quotes are not part of the
tokens, every other character between them is kept. -/
theorem parse_json_quoted_pair (q : Nat) (k v : CppString)
    (hq : q = CH_DQUOTE ∨ q = CH_SQUOTE) (hk : k ≠ []) (hv : v ≠ [])
    (hqk : q ∉ k) (hqv : q ∉ v) :
    parse_json (quoted_object q k v) = [(k, v)] := by
  have o1 : parse_step (key_state []) q
      = { result := [], key := [], value := [], in_key := true, in_value := false,
          in_string := true, quote_char := q } := by
    rcases hq with rfl | rfl <;> decide
  have c1 : parse_step
      { result := [], key := [] ++ k, value := [], in_key := true, in_value := false,
        in_string := true, quote_char := q } q
      = { result := [], key := k, value := [], in_key := true, in_value := false,
          in_string := false, quote_char := 0 } := by
    rcases hq with rfl | rfl <;> simp [parse_step]
  have c2 : parse_step
      { result := [], key := k, value := [], in_key := true, in_value := false,
        in_string := false, quote_char := 0 } CH_COLON
      = { result := [], key := k, value := [], in_key := false, in_value := true,
          in_string := false, quote_char := 0 } := by
    simp [parse_step, parse_flush]
  have o2 : parse_step
      { result := [], key := k, value := [], in_key := false, in_value := true,
        in_string := false, quote_char := 0 } q
      = { result := [], key := k, value := [], in_key := false, in_value := true,
          in_string := true, quote_char := q } := by
    rcases hq with rfl | rfl <;> simp [parse_step]
  have c3 : parse_step
      { result := [], key := k, value := [] ++ v, in_key := false, in_value := true,
        in_string := true, quote_char := q } q
      = value_state [] k v := by
    rcases hq with rfl | rfl <;> simp [parse_step, value_state]
  have c4 : parse_step (value_state [] k v) CH_RBRACE
      = { result := [(k, v)], key := [], value := [], in_key := false, in_value := true,
          in_string := false, quote_char := 0 } := by
    simp [parse_step, parse_flush, value_state, hk, hv, map_assign]
  unfold parse_json quoted_object
  rw [parse_scan_cons, parse_step_open, parse_scan_cons, o1, parse_scan_append,
    parse_scan_quoted_key k _ rfl rfl hqk, parse_scan_cons, c1, parse_scan_cons, c2,
    parse_scan_cons, o2, parse_scan_append, parse_scan_quoted_value v _ rfl rfl rfl hqv,
    parse_scan_cons, c3, parse_scan_cons, c4]
  simp [parse_scan, parse_flush]

/-- C18 at a single-quoted pair whose key and value hold spaces, structural characters
and double quotes. -/
theorem parse_json_quoted_pair_witness :
    parse_json (quoted_object CH_SQUOTE (ascii "a b,\x7b") (ascii ": \"x\" \x7d"))
      = [(ascii "a b,\x7b", ascii ": \"x\" \x7d")] :=
  parse_json_quoted_pair CH_SQUOTE (ascii "a b,\x7b") (ascii ": \"x\" \x7d")
    (Or.inr rfl) (by decide) (by decide) (by decide) (by decide)

/-- Claim C19 as stated fails: without the opening brace the scan never enters key mode
for the first key, so `a:1` decodes to the empty map, while `{a:1}` decodes to the
one-entry map. -/
theorem parse_json_needs_open_brace :
    parse_json (render_pairs [(ascii "a", ascii "1")]) = [] ∧
    parse_json (render_object [(ascii "a", ascii "1")]) = [(ascii "a", ascii "1")] ∧
    parse_json (render_pairs [(ascii "a", ascii "1")])
      ≠ parse_json (render_object [(ascii "a", ascii "1")]) := by
  decide

/-- C19 (amended): the closing brace is optional: for every list of pairs of non-empty
unquoted tokens, `parse_json` of `{k1:v1,...,kn:vn` without the closing brace equals
`parse_json` of the text with it, namely the map of the pairs. -/
theorem parse_json_close_brace_optional (pairs : List (CppString × CppString))
    (h : ∀ p ∈ pairs, plain_token p.1 ∧ plain_token p.2) :
    parse_json (CH_LBRACE :: render_pairs pairs) = parse_json (render_object pairs) ∧
      parse_json (CH_LBRACE :: render_pairs pairs) = map_of_pairs pairs := by
  have e2 : parse_json (CH_LBRACE :: render_pairs pairs) = map_of_pairs pairs := by
    cases pairs with
    | nil => decide
    | cons kv rest =>
      obtain ⟨m1, k, v, e, hk, hv, hm⟩ := parse_scan_render_pairs rest kv [] h
      unfold parse_json map_of_pairs
      rw [parse_scan_cons, parse_step_open, e, ← hm]
      simp [parse_flush, value_state, hk, hv]
  exact ⟨by rw [e2, parse_json_render_object pairs h], e2⟩

/-- C19 (amended) at two pairs. -/
theorem parse_json_close_brace_optional_witness :
    parse_json (CH_LBRACE :: render_pairs [(ascii "a", ascii "1"), (ascii "b", ascii "2")])
      = parse_json (render_object [(ascii "a", ascii "1"), (ascii "b", ascii "2")]) ∧
    parse_json (CH_LBRACE :: render_pairs [(ascii "a", ascii "1"), (ascii "b", ascii "2")])
      = map_of_pairs [(ascii "a", ascii "1"), (ascii "b", ascii "2")] :=
  parse_json_close_brace_optional [(ascii "a", ascii "1"), (ascii "b", ascii "2")]
    (by simp only [plain_token, token_char]; decide)

/-- C20 (the code departs from the claim): the buffers are cleared only when a pair is
stored. In `{a,k:v}` the comma stores nothing, because the value is empty, and leaves
`a` in the key buffer; the next key is appended to it, and the result is the one-entry
map from `ak` to `v`, not from `k` to `v`. -/
theorem parse_json_fragment_carried :
    parse_json (ascii "\x7ba,k:v\x7d") = [(ascii "ak", ascii "v")] ∧
      parse_json (ascii "\x7ba,k:v\x7d") ≠ [(ascii "k", ascii "v")] := by
  decide

/-- C22: a decoded command that lacks the key `emotion` is skipped: the command block
changes no global, and the iteration that received it ends at once with all globals,
the pending-transition flag included, as they were and with nothing done. -/
theorem command_without_emotion_ignored (stod : CppString → Option ℚ) (g : Globals)
    (inp : TickInput) (hj : inp.command_json ≠ [])
    (he : map_find (parse_json inp.command_json) (ascii "emotion") = none) :
    apply_command stod g (parse_json inp.command_json) = .skipped ∧
      tick stod g inp = .next g [] := by
  have h1 : apply_command stod g (parse_json inp.command_json) = .skipped := by
    unfold apply_command
    rw [he]
  refine ⟨h1, ?_⟩
  unfold tick
  rw [if_pos hj, h1]

/-- C22 at a command that carries a duration and a text but no emotion. -/
theorem command_without_emotion_ignored_witness :
    apply_command stod_plain (main_init 0 0)
        (parse_json (ascii "\x7b\"duration\":\"3.5\",\"text\":\"hi\"\x7d")) = .skipped ∧
      tick stod_plain (main_init 0 0)
        { command_json := ascii "\x7b\"duration\":\"3.5\",\"text\":\"hi\"\x7d",
          t_guard := 1, t_commit := 1, t_last := 1, t_ok := 1, talking_after_drive := false,
          t_timeout := 1, t_timeout_reset := 1 }
        = .next (main_init 0 0) [] :=
  command_without_emotion_ignored stod_plain (main_init 0 0)
    { command_json := ascii "\x7b\"duration\":\"3.5\",\"text\":\"hi\"\x7d",
      t_guard := 1, t_commit := 1, t_last := 1, t_ok := 1, talking_after_drive := false,
      t_timeout := 1, t_timeout_reset := 1 }
    (by decide) (by decide)

/-- Claim C23 as stated fails: a command with the emotion `happy` and the duration `abc`
makes `std::stod` throw; the command block does not complete and the iteration ends the
program. -/
theorem unparsable_number_throws :
    apply_command stod_plain (main_init 0 0)
        (parse_json (ascii "\x7b\"emotion\":\"happy\",\"duration\":\"abc\"\x7d")) = .threw ∧
      tick stod_plain (main_init 0 0)
        { command_json := ascii "\x7b\"emotion\":\"happy\",\"duration\":\"abc\"\x7d",
          t_guard := 1, t_commit := 1, t_last := 1, t_ok := 1, talking_after_drive := false,
          t_timeout := 1, t_timeout_reset := 1 }
        = .threw := by
  decide!

/-- A numeric field that is present and does not parse gives no value. -/
theorem stod_field_none (stod : CppString → Option ℚ) (command : StrMap) (key v : CppString)
    (old : ℚ) (hm : map_find command key = some v) (hs : stod v = none) :
    stod_field stod command key old = none := by
  unfold stod_field
  rw [hm]
  exact hs

/-- C23 (amended): for every command with the key `emotion` in which the value of
`duration`, `intensity`, `mouth_speed` or `anim_duration` is present and not parsable,
`std::stod` throws and nothing catches it: the command block does not complete, and the
iteration that received the command ends the program. -/
theorem unparsable_number_not_applied (stod : CppString → Option ℚ) (g : Globals)
    (inp : TickInput) (e key v : CppString) (hj : inp.command_json ≠ [])
    (he : map_find (parse_json inp.command_json) (ascii "emotion") = some e)
    (hk : key ∈ [ascii "duration", ascii "intensity", ascii "mouth_speed",
      ascii "anim_duration"])
    (hm : map_find (parse_json inp.command_json) key = some v) (hs : stod v = none) :
    apply_command stod g (parse_json inp.command_json) = .threw ∧
      tick stod g inp = .threw := by
  have h1 : apply_command stod g (parse_json inp.command_json) = .threw := by
    unfold apply_command
    rw [he]
    dsimp only
    simp only [List.mem_cons, List.mem_singleton, List.not_mem_nil, or_false] at hk
    rcases hk with rfl | rfl | rfl | rfl
    · rw [stod_field_none stod _ _ v _ hm hs]
    · rw [stod_field_none stod _ (ascii "intensity") v _ hm hs]
      cases stod_field stod (parse_json inp.command_json) (ascii "duration")
        g.current_duration <;> rfl
    · rw [stod_field_none stod _ (ascii "mouth_speed") v _ hm hs]
      cases stod_field stod (parse_json inp.command_json) (ascii "duration")
        g.current_duration
      · rfl
      · cases stod_field stod (parse_json inp.command_json) (ascii "intensity")
          g.current_intensity <;> rfl
    · rw [stod_field_none stod _ (ascii "anim_duration") v _ hm hs]
      cases stod_field stod (parse_json inp.command_json) (ascii "duration")
        g.current_duration
      · rfl
      · cases stod_field stod (parse_json inp.command_json) (ascii "intensity")
          g.current_intensity
        · rfl
        · cases stod_field stod (parse_json inp.command_json) (ascii "mouth_speed")
            g.current_mouth_speed <;> rfl
  refine ⟨h1, ?_⟩
  unfold tick
  rw [if_pos hj, h1]

/-- C23 (amended) at a command with the intensity `high`. -/
theorem unparsable_number_not_applied_witness :
    apply_command stod_plain (main_init 0 0)
        (parse_json (ascii "\x7b\"emotion\":\"sad\",\"intensity\":\"high\"\x7d")) = .threw ∧
      tick stod_plain (main_init 0 0)
        { command_json := ascii "\x7b\"emotion\":\"sad\",\"intensity\":\"high\"\x7d",
          t_guard := 1, t_commit := 1, t_last := 1, t_ok := 1, talking_after_drive := false,
          t_timeout := 1, t_timeout_reset := 1 }
        = .threw :=
  unparsable_number_not_applied stod_plain (main_init 0 0)
    { command_json := ascii "\x7b\"emotion\":\"sad\",\"intensity\":\"high\"\x7d",
      t_guard := 1, t_commit := 1, t_last := 1, t_ok := 1, talking_after_drive := false,
      t_timeout := 1, t_timeout_reset := 1 }
    (ascii "sad") (ascii "intensity") (ascii "high") (by decide) (by decide) (by decide)
    (by decide) (by decide)

/-- C25: for every random value `r`, `reset_state` yields for each of the nine emotions a
state of the structure that its handler reads; for `neutral` the pupil offset is
`(r mod 7) - 3`, within [-3, 3]; for `talking` the talking flag is false and frame and
timestamps are zero; for each of the other seven the animating flag is false and frame,
cycle count and timestamps are zero. -/
theorem reset_state_shape (r : Nat) :
    (∀ emotion ∈ emotions_keys,
      some (reset_state emotion r).shape = handler_shape emotion) ∧
    (∃ s, reset_state (ascii "neutral") r = .neutral s ∧
      s.pupil_direction = ((r % 7 : Nat) : Int) - 3 ∧
      -3 ≤ s.pupil_direction ∧ s.pupil_direction ≤ 3) ∧
    (∃ s, reset_state (ascii "talking") r = .talking s ∧ s.talking = false ∧
      s.frame = 0 ∧ s.start_time = 0 ∧ s.last_frame = 0 ∧ s.last_step_time = 0) ∧
    (∀ emotion ∈ [ascii "smile", ascii "smile_love", ascii "embarrassed", ascii "scary",
        ascii "happy", ascii "sad", ascii "surprise"],
      reset_state emotion r
        = .anim { animating := false, frame := 0, start_time := 0, last_frame := 0,
                  cycle_count := 0 }) := by
  have hanim : ∀ emotion ∈ [ascii "smile", ascii "smile_love", ascii "embarrassed",
      ascii "scary", ascii "happy", ascii "sad", ascii "surprise"],
      reset_state emotion r = .anim get_anim_state := by
    intro emotion he
    have h1 : emotion ≠ ascii "neutral" := by
      intro e; rw [e] at he; exact absurd he (by decide)
    have h2 : emotion ≠ ascii "talking" := by
      intro e; rw [e] at he; exact absurd he (by decide)
    unfold reset_state
    rw [if_neg h1, if_neg h2]
  have hn : reset_state (ascii "neutral") r = .neutral (get_neutral_state r) := by
    unfold reset_state
    rw [if_pos rfl]
  have ht : reset_state (ascii "talking") r = .talking get_talking_state := by
    unfold reset_state
    rw [if_neg (by decide), if_pos rfl]
  refine ⟨?_, ⟨get_neutral_state r, hn, rfl, ?_, ?_⟩,
    ⟨get_talking_state, ht, rfl, rfl, rfl, rfl, rfl⟩, hanim⟩
  · intro emotion he
    simp only [emotions_keys, List.mem_cons, List.mem_singleton, List.not_mem_nil,
      or_false] at he
    rcases he with rfl | rfl | rfl | rfl | rfl | rfl | rfl | rfl | rfl
    · rw [hn]; rfl
    · rw [hanim _ (by decide)]; decide
    · rw [hanim _ (by decide)]; decide
    · rw [hanim _ (by decide)]; decide
    · rw [hanim _ (by decide)]; decide
    · rw [hanim _ (by decide)]; decide
    · rw [hanim _ (by decide)]; decide
    · rw [hanim _ (by decide)]; decide
    · rw [ht]; decide
  · simp only [get_neutral_state]
    omega
  · simp only [get_neutral_state]
    omega

/-! ### Speech sequence: termination, jitter, pauses, total -/

/-- The sum of 32-bit values that do not wrap. -/
theorem u32_add_add_small (a b c : Nat) (h : a + b + c < U32) :
    u32_add (u32_add a b) c = a + b + c ∧ u32_add a (u32_add b c) = a + b + c := by
  have hU : U32 = 4294967296 := rfl
  have a1 : (a + b) % U32 = a + b := Nat.mod_eq_of_lt (by omega)
  have a2 : (a + b + c) % U32 = a + b + c := Nat.mod_eq_of_lt h
  have a3 : (b + c) % U32 = b + c := Nat.mod_eq_of_lt (by omega)
  have a4 : (a + (b + c)) % U32 = a + (b + c) := Nat.mod_eq_of_lt (by omega)
  unfold u32_add
  rw [a1, a2, a3, a4]
  exact ⟨rfl, by omega⟩

/-- The difference of 32-bit values that does not wrap. -/
theorem u32_sub_small (a b : Nat) (h1 : b ≤ a) (h2 : a < U32) : u32_sub a b = a - b := by
  have hU : U32 = 4294967296 := rfl
  have a1 : a + U32 - b = (a - b) + U32 := by omega
  have a2 : (a - b) % U32 = a - b := Nat.mod_eq_of_lt (by omega)
  unfold u32_sub
  rw [a1, Nat.add_mod_right, a2]

/-- With nominal durations from the clamp, a jittered cycle lasts between 135 and 878 ms. -/
theorem jitter_cycle_range (od cd r1 r2 : Nat) (ho1 : 90 ≤ od) (ho2 : od ≤ 480)
    (hc1 : 60 ≤ cd) (hc2 : cd ≤ 320) :
    135 ≤ jitter od r1 + jitter cd r2 ∧ jitter od r1 + jitter cd r2 ≤ 878 := by
  obtain ⟨-, a1, a2⟩ := jitter_bounds od r1 (by omega) ho2
  obtain ⟨-, b1, b2⟩ := jitter_bounds cd r2 (by omega) (by omega)
  omega

/-- As long as the fit test cannot wrap, the loop ends within
`(total_duration_ms - accumulated_time) / 135 + 1` iterations. -/
theorem talking_loop_terminates {M : Type} (total od cd : Nat) (om cm : M)
    (rand : Nat → Nat) (ht : total + 878 ≤ U32) (ho1 : 90 ≤ od) (ho2 : od ≤ 480)
    (hc1 : 60 ≤ cd) (hc2 : cd ≤ 320) :
    ∀ fuel acc cc ri, acc ≤ total → (total - acc) / 135 < fuel →
      ∃ frames, talking_loop total od cd om cm rand fuel acc cc ri = some frames := by
  intro fuel
  induction fuel with
  | zero => intro acc cc ri _ h; omega
  | succ fuel ih =>
    intro acc cc ri hacc hfuel
    have hU : U32 = 4294967296 := rfl
    have hj := jitter_cycle_range od cd (rand ri) (rand (ri + 1)) ho1 ho2 hc1 hc2
    unfold talking_loop
    generalize jitter od (rand ri) = vo at hj
    generalize jitter cd (rand (ri + 1)) = vc at hj
    clear ho1 ho2 hc1 hc2
    by_cases hlt : acc < total
    · rw [if_pos hlt]
      obtain ⟨e1, e2⟩ := u32_add_add_small acc vo vc (by omega)
      dsimp only
      rw [e1, e2]
      by_cases hfit : acc + vo + vc ≤ total
      · rw [if_pos hfit]
        have e3 : u32_add (acc + vo + vc) 100 = acc + vo + vc + 100 :=
          u32_add_small _ _ (by omega)
        rw [e3]
        by_cases hp : (cc + 1) % 4 = 0 ∧ acc + vo + vc + 100 < total
        · rw [if_pos hp]
          obtain ⟨later, hl⟩ := ih (acc + vo + vc + 100) (cc + 1) (ri + 2) (by omega)
            (by omega)
          exact ⟨_, by rw [hl]; rfl⟩
        · rw [if_neg hp]
          obtain ⟨later, hl⟩ := ih (acc + vo + vc) (cc + 1) (ri + 2) hfit (by omega)
          exact ⟨_, by rw [hl]; rfl⟩
      · rw [if_neg hfit]
        split_ifs
        · exact ⟨_, rfl⟩
        · exact ⟨_, rfl⟩
    · rw [if_neg hlt]
      exact ⟨[], rfl⟩

/-- C26: for every text, converted cycle value and random stream, and every
`total_duration_ms` with `total_duration_ms + 878 <= 2^32`, so that the 32-bit fit test
cannot wrap, the frame-emission loop ends within `total_duration_ms / 135 + 1`
iterations and yields a finite sequence: an iteration that does not stop adds a
jittered cycle of at least 135 ms to `accumulated_time`. -/
theorem setup_talking_animation_terminates {M : Type} (text : CppString) (total raw : Nat)
    (om cm : M) (rand : Nat → Nat) (ht : total + 878 ≤ U32) :
    (∃ frames,
      setup_talking_animation text total raw om cm rand (total / 135 + 1) = some frames) ∧
    ∀ r1 r2, 135 ≤ jitter (cycle_clamp raw * 6 / 10) r1 + jitter (cycle_clamp raw * 4 / 10) r2 := by
  obtain ⟨a, b, c, d⟩ := open_closed_range raw
  refine ⟨?_, fun r1 r2 => (jitter_cycle_range _ _ r1 r2 a b c d).1⟩
  unfold setup_talking_animation
  by_cases h : text = [] ∨ total = 0
  · rw [if_pos h]
    exact ⟨[], rfl⟩
  · rw [if_neg h]
    exact talking_loop_terminates total _ _ om cm rand ht a b c d (total / 135 + 1) 0 0 0
      (Nat.zero_le _) (by omega)

/-- C26 at a text of five letters, 3000 ms, the cycle of `mouth_speed = 1.0` and `rand()`
always 7. -/
theorem setup_talking_animation_terminates_witness :
    (∃ frames,
      setup_talking_animation (ascii "hello") 3000 285 (0 : Nat) 1 (fun _ => 7)
        (3000 / 135 + 1) = some frames) ∧
    ∀ r1 r2, 135 ≤ jitter (cycle_clamp 285 * 6 / 10) r1 + jitter (cycle_clamp 285 * 4 / 10) r2 :=
  setup_talking_animation_terminates (ascii "hello") 3000 285 (0 : Nat) 1 (fun _ => 7)
    (by decide)

/-- C27: for every cycle and every random value, the jittered open duration lies between
`open_ms - floor(open_ms / 10)` and `open_ms + floor(open_ms / 10)`, and the jittered closed
duration between the same bounds around `closed_ms`. -/
theorem jitter_within_tenth (raw r : Nat) :
    cycle_clamp raw * 6 / 10 - cycle_clamp raw * 6 / 10 / 10
        ≤ jitter (cycle_clamp raw * 6 / 10) r ∧
    jitter (cycle_clamp raw * 6 / 10) r
        ≤ cycle_clamp raw * 6 / 10 + cycle_clamp raw * 6 / 10 / 10 ∧
    cycle_clamp raw * 4 / 10 - cycle_clamp raw * 4 / 10 / 10
        ≤ jitter (cycle_clamp raw * 4 / 10) r ∧
    jitter (cycle_clamp raw * 4 / 10) r
        ≤ cycle_clamp raw * 4 / 10 + cycle_clamp raw * 4 / 10 / 10 := by
  obtain ⟨a, b, c, d⟩ := open_closed_range raw
  obtain ⟨-, a1, a2⟩ := jitter_bounds (cycle_clamp raw * 6 / 10) r (by omega) b
  obtain ⟨-, b1, b2⟩ := jitter_bounds (cycle_clamp raw * 4 / 10) r (by omega) (by omega)
  generalize cycle_clamp raw * 6 / 10 = od at *
  generalize cycle_clamp raw * 4 / 10 = cd at *
  omega

/-- As long as the fit test cannot wrap, the frames pushed from a loop state on bring the
running total to within 50 ms of `total_duration_ms`, never above it, and exactly to it
when a FINAL frame is among them. -/
theorem talking_loop_reaches_total {M : Type} (total od cd : Nat) (om cm : M)
    (rand : Nat → Nat) (ht : total + 878 ≤ U32) (ho1 : 90 ≤ od) (ho2 : od ≤ 480)
    (hc1 : 60 ≤ cd) (hc2 : cd ≤ 320) :
    ∀ fuel acc cc ri, acc ≤ total → (total - acc) / 135 < fuel →
      ∃ frames, talking_loop total od cd om cm rand fuel acc cc ri = some frames ∧
        acc + scheduled_ms frames ≤ total ∧ total ≤ acc + scheduled_ms frames + 50 ∧
        ((∃ f ∈ frames, f.name = FrameName.FINAL) → acc + scheduled_ms frames = total) := by
  intro fuel
  induction fuel with
  | zero => intro acc cc ri _ h; omega
  | succ fuel ih =>
    intro acc cc ri hacc hfuel
    have hU : U32 = 4294967296 := rfl
    have hj := jitter_cycle_range od cd (rand ri) (rand (ri + 1)) ho1 ho2 hc1 hc2
    unfold talking_loop
    generalize jitter od (rand ri) = vo at hj
    generalize jitter cd (rand (ri + 1)) = vc at hj
    clear ho1 ho2 hc1 hc2
    by_cases hlt : acc < total
    · rw [if_pos hlt]
      obtain ⟨e1, e2⟩ := u32_add_add_small acc vo vc (by omega)
      dsimp only
      rw [e1, e2]
      by_cases hfit : acc + vo + vc ≤ total
      · rw [if_pos hfit]
        have e3 : u32_add (acc + vo + vc) 100 = acc + vo + vc + 100 :=
          u32_add_small _ _ (by omega)
        rw [e3]
        by_cases hp : (cc + 1) % 4 = 0 ∧ acc + vo + vc + 100 < total
        · rw [if_pos hp]
          obtain ⟨later, hl, hs1, hs2, hs3⟩ :=
            ih (acc + vo + vc + 100) (cc + 1) (ri + 2) (by omega) (by omega)
          refine ⟨_, by rw [hl]; rfl, ?_, ?_, ?_⟩
          · simp only [scheduled_ms, List.map_cons, List.sum_cons] at hs1 ⊢
            omega
          · simp only [scheduled_ms, List.map_cons, List.sum_cons] at hs2 ⊢
            omega
          · rintro ⟨f, hf, hn⟩
            simp only [List.mem_cons] at hf
            rcases hf with hf | hf | hf | hf
            · rw [hf] at hn; cases hn
            · rw [hf] at hn; cases hn
            · rw [hf] at hn; cases hn
            · have h3 := hs3 ⟨f, hf, hn⟩
              simp only [scheduled_ms, List.map_cons, List.sum_cons] at h3 ⊢
              omega
        · rw [if_neg hp]
          obtain ⟨later, hl, hs1, hs2, hs3⟩ :=
            ih (acc + vo + vc) (cc + 1) (ri + 2) hfit (by omega)
          refine ⟨_, by rw [hl]; rfl, ?_, ?_, ?_⟩
          · simp only [scheduled_ms, List.map_cons, List.sum_cons] at hs1 ⊢
            omega
          · simp only [scheduled_ms, List.map_cons, List.sum_cons] at hs2 ⊢
            omega
          · rintro ⟨f, hf, hn⟩
            simp only [List.mem_cons] at hf
            rcases hf with hf | hf | hf
            · rw [hf] at hn; cases hn
            · rw [hf] at hn; cases hn
            · have h3 := hs3 ⟨f, hf, hn⟩
              simp only [scheduled_ms, List.map_cons, List.sum_cons] at h3 ⊢
              omega
      · rw [if_neg hfit]
        rw [u32_sub_small total acc hacc (by omega)]
        by_cases hr : total - acc > 50
        · rw [if_pos hr]
          refine ⟨_, rfl, ?_, ?_, fun _ => ?_⟩ <;>
            simp only [scheduled_ms, List.map_cons, List.map_nil, List.sum_cons,
              List.sum_nil] <;> omega
        · rw [if_neg hr]
          refine ⟨[], rfl, ?_, ?_, ?_⟩
          · simp only [scheduled_ms, List.map_nil, List.sum_nil]
            omega
          · simp only [scheduled_ms, List.map_nil, List.sum_nil]
            omega
          · rintro ⟨f, hf, -⟩
            cases hf
    · rw [if_neg hlt]
      refine ⟨[], rfl, ?_, ?_, ?_⟩
      · simp only [scheduled_ms, List.map_nil, List.sum_nil]
        omega
      · simp only [scheduled_ms, List.map_nil, List.sum_nil]
        omega
      · rintro ⟨f, hf, -⟩
        cases hf

/-- C30: for every non-empty text, every `total_duration_ms > 0` with
`total_duration_ms + 878 <= 2^32` (no 32-bit overflow), every converted cycle value (so
every mouth speed) and every stream of random values, `setup_talking_animation` returns a
sequence whose scheduled durations sum to at least `total_duration_ms - 50` and at most
`total_duration_ms`, and to exactly `total_duration_ms` when a FINAL frame is emitted. -/
theorem setup_talking_animation_sum_near_total {M : Type} (text : CppString)
    (total raw : Nat) (om cm : M) (rand : Nat → Nat) (htext : text ≠ [])
    (hpos : 0 < total) (ht : total + 878 ≤ U32) :
    ∃ frames,
      setup_talking_animation text total raw om cm rand (total / 135 + 1) = some frames ∧
      total ≤ scheduled_ms frames + 50 ∧ scheduled_ms frames ≤ total ∧
      ((∃ f ∈ frames, f.name = FrameName.FINAL) → scheduled_ms frames = total) := by
  unfold setup_talking_animation
  have h : ¬ (text = [] ∨ total = 0) := by
    rintro (h | h)
    · exact htext h
    · omega
  rw [if_neg h]
  obtain ⟨a, b, c, d⟩ := open_closed_range raw
  obtain ⟨frames, hf, h1, h2, h3⟩ := talking_loop_reaches_total total _ _ om cm rand ht
    a b c d (total / 135 + 1) 0 0 0 (Nat.zero_le _) (by omega)
  refine ⟨frames, hf, by omega, by omega, fun hx => ?_⟩
  have := h3 hx
  omega

/-- C30 at a text of five letters, 3000 ms, the cycle of `mouth_speed = 1.0` and `rand()`
always 7. -/
theorem setup_talking_animation_sum_near_total_witness :
    ∃ frames,
      setup_talking_animation (ascii "hello") 3000 285 (0 : Nat) 1 (fun _ => 7)
        (3000 / 135 + 1) = some frames ∧
      3000 ≤ scheduled_ms frames + 50 ∧ scheduled_ms frames ≤ 3000 ∧
      ((∃ f ∈ frames, f.name = FrameName.FINAL) → scheduled_ms frames = 3000) :=
  setup_talking_animation_sum_near_total (ascii "hello") 3000 285 (0 : Nat) 1 (fun _ => 7)
    (by decide) (by decide) (by decide)

/-- In the frames pushed from any loop state on, a PAUSE frame lasts 100 ms, shows the
closed bitmap and directly follows an OPEN frame and a CLOSED frame. -/
theorem talking_loop_pause_position {M : Type} (total od cd : Nat) (om cm : M)
    (rand : Nat → Nat) :
    ∀ fuel acc cc ri frames,
      talking_loop total od cd om cm rand fuel acc cc ri = some frames →
      ∀ pre f post, frames = pre ++ f :: post → f.name = FrameName.PAUSE →
        f.duration_ms = 100 ∧ f.matrix = cm ∧
        ∃ pre2 o c, pre = pre2 ++ [o, c] ∧ o.name = FrameName.OPEN ∧
          c.name = FrameName.CLOSED := by
  intro fuel
  induction fuel with
  | zero => intro acc cc ri frames h; cases h
  | succ fuel ih =>
    intro acc cc ri frames h pre f post hsplit hname
    unfold talking_loop at h
    dsimp only at h
    split_ifs at h with h1 h2 h3 h4
    · rcases hl : talking_loop total od cd om cm rand fuel
          (u32_add (u32_add acc (u32_add (jitter od (rand ri)) (jitter cd (rand (ri + 1)))))
            100) (cc + 1) (ri + 2) with _ | later
      · rw [hl] at h; cases h
      · rw [hl] at h
        simp only [Option.map_some'] at h
        have hfr := Option.some.inj h
        rw [← hfr] at hsplit
        rcases pre with _ | ⟨x, _ | ⟨y, _ | ⟨z, pre3⟩⟩⟩
        · simp only [List.nil_append, List.cons.injEq] at hsplit
          rw [← hsplit.1] at hname; cases hname
        · simp only [List.cons_append, List.nil_append, List.cons.injEq] at hsplit
          rw [← hsplit.2.1] at hname; cases hname
        · simp only [List.cons_append, List.nil_append, List.cons.injEq] at hsplit
          obtain ⟨hx, hy, hz, -⟩ := hsplit
          refine ⟨by rw [← hz], by rw [← hz], [], x, y, rfl, by rw [← hx], by rw [← hy]⟩
        · simp only [List.cons_append, List.cons.injEq] at hsplit
          obtain ⟨-, -, -, hrest⟩ := hsplit
          obtain ⟨e1, e2, pre2, o, c, e3, e4, e5⟩ := ih _ _ _ later hl pre3 f post hrest hname
          exact ⟨e1, e2, x :: y :: z :: pre2, o, c, by rw [e3]; rfl, e4, e5⟩
    · rcases hl : talking_loop total od cd om cm rand fuel
          (u32_add acc (u32_add (jitter od (rand ri)) (jitter cd (rand (ri + 1)))))
          (cc + 1) (ri + 2) with _ | later
      · rw [hl] at h; cases h
      · rw [hl] at h
        simp only [Option.map_some'] at h
        have hfr := Option.some.inj h
        rw [← hfr] at hsplit
        rcases pre with _ | ⟨x, _ | ⟨y, pre3⟩⟩
        · simp only [List.nil_append, List.cons.injEq] at hsplit
          rw [← hsplit.1] at hname; cases hname
        · simp only [List.cons_append, List.nil_append, List.cons.injEq] at hsplit
          rw [← hsplit.2.1] at hname; cases hname
        · simp only [List.cons_append, List.cons.injEq] at hsplit
          obtain ⟨-, -, hrest⟩ := hsplit
          obtain ⟨e1, e2, pre2, o, c, e3, e4, e5⟩ := ih _ _ _ later hl pre3 f post hrest hname
          exact ⟨e1, e2, x :: y :: pre2, o, c, by rw [e3]; rfl, e4, e5⟩
    · have hfr := Option.some.inj h
      rw [← hfr] at hsplit
      rcases pre with _ | ⟨x, pre3⟩
      · simp only [List.nil_append, List.cons.injEq] at hsplit
        rw [← hsplit.1] at hname; cases hname
      · simp only [List.cons_append, List.cons.injEq] at hsplit
        have := congrArg List.length hsplit.2
        simp only [List.length_nil, List.length_append, List.length_cons] at this
        omega
    · have hfr := Option.some.inj h
      rw [← hfr] at hsplit
      have := congrArg List.length hsplit
      simp only [List.length_nil, List.length_append, List.length_cons] at this
      omega
    · have hfr := Option.some.inj h
      rw [← hfr] at hsplit
      have := congrArg List.length hsplit
      simp only [List.length_nil, List.length_append, List.length_cons] at this
      omega

/-- The frames pushed from any loop state on do not begin with a PAUSE frame. -/
theorem talking_loop_head_not_pause {M : Type} (total od cd : Nat) (om cm : M)
    (rand : Nat → Nat) (fuel acc cc ri : Nat) (frames : List (AnimationFrame M))
    (h : talking_loop total od cd om cm rand fuel acc cc ri = some frames)
    (f : AnimationFrame M) (hf : frames.head? = some f) : f.name ≠ FrameName.PAUSE := by
  intro hname
  rcases frames with _ | ⟨g, post⟩
  · cases hf
  · simp only [List.head?_cons, Option.some.injEq] at hf
    obtain ⟨-, -, pre2, o, c, e, -, -⟩ :=
      talking_loop_pause_position total od cd om cm rand fuel acc cc ri (g :: post) h
        [] f post (by rw [hf]; rfl) hname
    have := congrArg List.length e
    simp at this

/-- C28 (counterexample): 640 ms, nominal cycle 150 ms, `rand()` always 0. Every cycle
lasts 81 + 54 = 135 ms; after the fourth cycle `accumulated_time` is 540, so the number
of completed cycles is a multiple of 4 and `640 - 540 = 100 >= 100` ms remain, but the
test `540 + 100 < 640` fails and no PAUSE frame is inserted: the FINAL frame follows. -/
theorem no_pause_with_exactly_100_left :
    setup_talking_animation (ascii "a") 640 150 (0 : Nat) 1 (fun _ => 0) 10
      = some [
          { matrix := 0, duration_ms := 81, name := .OPEN },
          { matrix := 1, duration_ms := 54, name := .CLOSED },
          { matrix := 0, duration_ms := 81, name := .OPEN },
          { matrix := 1, duration_ms := 54, name := .CLOSED },
          { matrix := 0, duration_ms := 81, name := .OPEN },
          { matrix := 1, duration_ms := 54, name := .CLOSED },
          { matrix := 0, duration_ms := 81, name := .OPEN },
          { matrix := 1, duration_ms := 54, name := .CLOSED },
          { matrix := 0, duration_ms := 100, name := .FINAL }] ∧
    4 * (81 + 54) = 540 ∧ 4 % 4 = 0 ∧ 640 - 540 ≥ 100 := by
  decide

/-- C28 (amended): take an iteration of the loop of `setup_talking_animation` that
completes an OPEN/CLOSED cycle (the cycle fits). A PAUSE frame of 100 ms with the closed
bitmap is pushed directly after the cycle when the number of completed cycles is a
multiple of 4 and more than 100 ms remain (`accumulated_time + 100 < total_duration_ms`
in 32 bits); otherwise the frames of the next iteration follow the cycle directly, and
they do not begin with a PAUSE. Every PAUSE frame of the sequence lasts 100 ms, shows the
closed bitmap and directly follows an OPEN frame and a CLOSED frame. -/
theorem pause_after_fourth_cycle_strict {M : Type} (total od cd : Nat) (om cm : M)
    (rand : Nat → Nat) (fuel acc cc ri : Nat) (frames : List (AnimationFrame M))
    (h : talking_loop total od cd om cm rand (fuel + 1) acc cc ri = some frames)
    (hlt : acc < total)
    (hfit : u32_add (u32_add acc (jitter od (rand ri))) (jitter cd (rand (ri + 1))) ≤ total) :
    (((cc + 1) % 4 = 0 ∧ u32_add (u32_add acc (u32_add (jitter od (rand ri)) (jitter cd (rand (ri + 1))))) 100 < total) →
      ∃ later, frames = { matrix := om, duration_ms := jitter od (rand ri), name := .OPEN } ::
          { matrix := cm, duration_ms := jitter cd (rand (ri + 1)), name := .CLOSED } ::
          { matrix := cm, duration_ms := 100, name := .PAUSE } :: later ∧
        talking_loop total od cd om cm rand fuel (u32_add (u32_add acc (u32_add (jitter od (rand ri)) (jitter cd (rand (ri + 1))))) 100)
          (cc + 1) (ri + 2) = some later ∧
        ∀ f, later.head? = some f → f.name ≠ FrameName.PAUSE) ∧
    (¬ ((cc + 1) % 4 = 0 ∧ u32_add (u32_add acc (u32_add (jitter od (rand ri)) (jitter cd (rand (ri + 1))))) 100 < total) →
      ∃ later, frames = { matrix := om, duration_ms := jitter od (rand ri), name := .OPEN } ::
          { matrix := cm, duration_ms := jitter cd (rand (ri + 1)), name := .CLOSED } :: later ∧
        talking_loop total od cd om cm rand fuel (u32_add acc (u32_add (jitter od (rand ri)) (jitter cd (rand (ri + 1)))))
          (cc + 1) (ri + 2) = some later ∧
        ∀ f, later.head? = some f → f.name ≠ FrameName.PAUSE) ∧
    (∀ pre f post, frames = pre ++ f :: post → f.name = FrameName.PAUSE →
      f.duration_ms = 100 ∧ f.matrix = cm ∧
      ∃ pre2 o c, pre = pre2 ++ [o, c] ∧ o.name = FrameName.OPEN ∧ c.name = FrameName.CLOSED) := by
  have hpos := talking_loop_pause_position total od cd om cm rand (fuel + 1) acc cc ri frames h
  unfold talking_loop at h
  rw [if_pos hlt] at h
  dsimp only at h
  rw [if_pos hfit] at h
  refine ⟨fun hc => ?_, fun hc => ?_, hpos⟩
  · rw [if_pos hc] at h
    rcases hl : talking_loop total od cd om cm rand fuel
        (u32_add (u32_add acc (u32_add (jitter od (rand ri)) (jitter cd (rand (ri + 1)))))
          100) (cc + 1) (ri + 2) with _ | later
    · rw [hl] at h; cases h
    · rw [hl] at h
      simp only [Option.map_some'] at h
      exact ⟨later, (Option.some.inj h).symm, rfl,
        talking_loop_head_not_pause total od cd om cm rand fuel _ _ _ later hl⟩
  · rw [if_neg hc] at h
    rcases hl : talking_loop total od cd om cm rand fuel
        (u32_add acc (u32_add (jitter od (rand ri)) (jitter cd (rand (ri + 1)))))
        (cc + 1) (ri + 2) with _ | later
    · rw [hl] at h; cases h
    · rw [hl] at h
      simp only [Option.map_some'] at h
      exact ⟨later, (Option.some.inj h).symm, rfl,
        talking_loop_head_not_pause total od cd om cm rand fuel _ _ _ later hl⟩

/-- C28 (amended) at the fourth cycle of a 700 ms sequence with nominal open and closed
durations 90 and 60 and `rand()` always 0: the cycle ends at 540 ms, `540 + 100 < 700`,
and the PAUSE frame is pushed. -/
theorem pause_after_fourth_cycle_strict_witness :
    (((3 + 1) % 4 = 0 ∧ u32_add (u32_add 405 (u32_add (jitter 90 ((fun _ => 0) 0)) (jitter 60 ((fun _ => 0) (0 + 1))))) 100 < 700) →
      ∃ later, ([{ matrix := 0, duration_ms := 81, name := .OPEN },
          { matrix := 1, duration_ms := 54, name := .CLOSED },
          { matrix := 1, duration_ms := 100, name := .PAUSE },
          { matrix := 0, duration_ms := 60, name := .FINAL }] : List (AnimationFrame Nat)) = { matrix := (0 : Nat), duration_ms := jitter 90 ((fun _ => 0) 0), name := .OPEN } ::
          { matrix := 1, duration_ms := jitter 60 ((fun _ => 0) (0 + 1)), name := .CLOSED } ::
          { matrix := 1, duration_ms := 100, name := .PAUSE } :: later ∧
        talking_loop 700 90 60 (0 : Nat) 1 (fun _ => 0) 1 (u32_add (u32_add 405 (u32_add (jitter 90 ((fun _ => 0) 0)) (jitter 60 ((fun _ => 0) (0 + 1))))) 100)
          (3 + 1) (0 + 2) = some later ∧
        ∀ f, later.head? = some f → f.name ≠ FrameName.PAUSE) ∧
    (¬ ((3 + 1) % 4 = 0 ∧ u32_add (u32_add 405 (u32_add (jitter 90 ((fun _ => 0) 0)) (jitter 60 ((fun _ => 0) (0 + 1))))) 100 < 700) →
      ∃ later, ([{ matrix := 0, duration_ms := 81, name := .OPEN },
          { matrix := 1, duration_ms := 54, name := .CLOSED },
          { matrix := 1, duration_ms := 100, name := .PAUSE },
          { matrix := 0, duration_ms := 60, name := .FINAL }] : List (AnimationFrame Nat)) = { matrix := (0 : Nat), duration_ms := jitter 90 ((fun _ => 0) 0), name := .OPEN } ::
          { matrix := 1, duration_ms := jitter 60 ((fun _ => 0) (0 + 1)), name := .CLOSED } :: later ∧
        talking_loop 700 90 60 (0 : Nat) 1 (fun _ => 0) 1 (u32_add 405 (u32_add (jitter 90 ((fun _ => 0) 0)) (jitter 60 ((fun _ => 0) (0 + 1)))))
          (3 + 1) (0 + 2) = some later ∧
        ∀ f, later.head? = some f → f.name ≠ FrameName.PAUSE) ∧
    (∀ pre f post, ([{ matrix := 0, duration_ms := 81, name := .OPEN },
          { matrix := 1, duration_ms := 54, name := .CLOSED },
          { matrix := 1, duration_ms := 100, name := .PAUSE },
          { matrix := 0, duration_ms := 60, name := .FINAL }] : List (AnimationFrame Nat)) = pre ++ f :: post → f.name = FrameName.PAUSE →
      f.duration_ms = 100 ∧ f.matrix = 1 ∧
      ∃ pre2 o c, pre = pre2 ++ [o, c] ∧ o.name = FrameName.OPEN ∧ c.name = FrameName.CLOSED) :=
  pause_after_fourth_cycle_strict 700 90 60 (0 : Nat) 1 (fun _ => 0) 1 405 3 0
    [{ matrix := 0, duration_ms := 81, name := .OPEN },
      { matrix := 1, duration_ms := 54, name := .CLOSED },
      { matrix := 1, duration_ms := 100, name := .PAUSE },
      { matrix := 0, duration_ms := 60, name := .FINAL }]
    (by decide) (by decide) (by decide)

/-! ### `anime_logic`: the frame index while animating -/

/-- One call on an animating state with `duration > 2`: either `frame` is unchanged, or
the frame time has passed, the elapsed time is below `duration * 1000`, `frame` is the
successor modulo 4 and the draw call is the non-forced one of the entry of
`[start, a, b, c]` at the new index. -/
theorem anime_logic_animating_step {M : Type} (state : AnimState)
    (speed_ms duration now : Nat) (ms ma mb mc me : Option M)
    (ha : state.animating = true) (hd : 2 < duration) :
    (anime_logic state speed_ms duration now ms ma mb mc me).1.frame = state.frame ∨
    (max speed_ms 100 ≤ u32_sub now state.last_frame ∧
      u32_sub now state.start_time < duration * 1000 ∧
      (anime_logic state speed_ms duration now ms ma mb mc me).1.frame
        = (state.frame + 1) % 4 ∧
      (anime_logic state speed_ms duration now ms ma mb mc me).2
        = draw_if ([ms, ma, mb, mc].getD
            (anime_logic state speed_ms duration now ms ma mb mc me).1.frame none) false) := by
  have hle : u32_mul duration 1000 ≤ duration * 1000 := Nat.mod_le _ _
  have hmax : (if speed_ms < 100 then 100 else speed_ms) = max speed_ms 100 := by
    split_ifs <;> omega
  unfold anime_logic
  simp only [ha, Bool.true_eq_false, false_and, if_false, true_and]
  rw [if_pos hd]
  by_cases he : u32_sub now state.start_time < u32_mul duration 1000
  · rw [if_pos he]
    by_cases hl : u32_sub now state.last_frame ≥ (if speed_ms < 100 then 100 else speed_ms)
    · rw [if_pos hl]
      right
      refine ⟨by rw [← hmax]; exact hl, by omega, rfl, ?_⟩
      dsimp only
      have h4 : (state.frame + 1) % 4 < 4 := Nat.mod_lt _ (by decide)
      generalize (state.frame + 1) % 4 = k at h4
      interval_cases k <;> rfl
    · rw [if_neg hl]
      left
      rfl
  · rw [if_neg he]
    left
    rfl

/-- A run that stays animating: `frame` stays below 4 and is the start value plus the
number of frame changes, modulo 4. -/
theorem anime_calls_frame_count {M : Type} (speed_ms duration : Nat)
    (ms ma mb mc me : Option M) (hd : 2 < duration) :
    ∀ clocks state, state.animating = true → state.frame < 4 →
      (∀ x ∈ anime_calls state speed_ms duration ms ma mb mc me clocks,
        x.1.animating = true) →
      (last_state state (anime_calls state speed_ms duration ms ma mb mc me clocks)).frame
        = (state.frame
            + frame_advances state
                (anime_calls state speed_ms duration ms ma mb mc me clocks)) % 4 ∧
      ∀ x ∈ anime_calls state speed_ms duration ms ma mb mc me clocks, x.1.frame < 4 := by
  intro clocks
  induction clocks with
  | nil =>
    intro state _ hf _
    refine ⟨?_, fun x hx => by cases hx⟩
    simp only [anime_calls, last_state, frame_advances, Nat.add_zero]
    exact (Nat.mod_eq_of_lt hf).symm
  | cons now later ih =>
    intro state ha hf hall
    simp only [anime_calls, List.mem_cons, forall_eq_or_imp] at hall ⊢
    obtain ⟨ha1, hrest⟩ := hall
    have hstep := anime_logic_animating_step state speed_ms duration now ms ma mb mc me
      ha hd
    have hf1 : (anime_logic state speed_ms duration now ms ma mb mc me).1.frame < 4 := by
      rcases hstep with h | ⟨-, -, h, -⟩
      · rw [h]; exact hf
      · rw [h]; exact Nat.mod_lt _ (by decide)
    obtain ⟨i1, i2⟩ := ih _ ha1 hf1 hrest
    refine ⟨?_, hf1, i2⟩
    simp only [last_state, frame_advances]
    rw [i1]
    rcases hstep with h | ⟨-, -, h, -⟩
    · rw [if_pos h, h]
      omega
    · have hne : ¬ ((anime_logic state speed_ms duration now ms ma mb mc me).1.frame
          = state.frame) := by
        rw [h]; omega
      rw [if_neg hne, h]
      omega

/-- C29: on an animating state with `frame` in {0,1,2,3} and `duration > 2`, and a frame
time whose double is not 0 in 32 bits (the divisor of the cycle count), a call of
`anime_logic` leaves `frame` in {0,1,2,3}; `frame` changes only if the time since
`last_frame` is at least `max(speed_ms, 100)` and the elapsed time is below
`duration * 1000`, the new value is `(frame + 1) mod 4`, and the draw call is the
non-forced one of the entry of `[start, a, b, c]` at the new index. In a run of calls
that stays animating, `frame` stays in {0,1,2,3} and equals the start value plus the
number of advances, modulo 4. -/
theorem anime_logic_frame_cycle {M : Type} (state : AnimState)
    (speed_ms duration now : Nat) (ms ma mb mc me : Option M)
    (ha : state.animating = true) (hf : state.frame < 4) (hd : 2 < duration)
    (_hdiv : u32_mul (max speed_ms 100) 2 ≠ 0) :
    ((anime_logic state speed_ms duration now ms ma mb mc me).1.frame < 4 ∧
    ((anime_logic state speed_ms duration now ms ma mb mc me).1.frame ≠ state.frame →
      max speed_ms 100 ≤ u32_sub now state.last_frame ∧
      u32_sub now state.start_time < duration * 1000 ∧
      (anime_logic state speed_ms duration now ms ma mb mc me).1.frame = (state.frame + 1) % 4 ∧
      (anime_logic state speed_ms duration now ms ma mb mc me).2
        = draw_if ([ms, ma, mb, mc].getD
            (anime_logic state speed_ms duration now ms ma mb mc me).1.frame none) false) ∧
    (∀ clocks,
      (∀ x ∈ anime_calls state speed_ms duration ms ma mb mc me clocks, x.1.animating = true) →
      (last_state state (anime_calls state speed_ms duration ms ma mb mc me clocks)).frame
        = (state.frame + frame_advances state (anime_calls state speed_ms duration ms ma mb mc me clocks)) % 4 ∧
      ∀ x ∈ anime_calls state speed_ms duration ms ma mb mc me clocks, x.1.frame < 4)) := by
  have hstep := anime_logic_animating_step state speed_ms duration now ms ma mb mc me
    ha hd
  refine ⟨?_, fun hne => ?_, fun clocks hall =>
    anime_calls_frame_count speed_ms duration ms ma mb mc me hd clocks state ha hf hall⟩
  · rcases hstep with h | ⟨-, -, h, -⟩
    · rw [h]; exact hf
    · rw [h]; exact Nat.mod_lt _ (by decide)
  · rcases hstep with h | h
    · exact absurd h hne
    · exact h

/-- C29 at frame 1 of a 5 s animation started at 1000 ms with a frame time of 400 ms,
called at 1500 ms. -/
theorem anime_logic_frame_cycle_witness :
    ((anime_logic
        { animating := true, frame := 1, start_time := 1000, last_frame := 1000, cycle_count := 0 }
        400 5 1500 (some 0) (some 1) (some 2) (some 3) (some 4)).1.frame < 4 ∧
    ((anime_logic
        { animating := true, frame := 1, start_time := 1000, last_frame := 1000, cycle_count := 0 }
        400 5 1500 (some 0) (some 1) (some 2) (some 3) (some 4)).1.frame ≠ 1 →
      max 400 100 ≤ u32_sub 1500 1000 ∧
      u32_sub 1500 1000 < 5 * 1000 ∧
      (anime_logic
        { animating := true, frame := 1, start_time := 1000, last_frame := 1000, cycle_count := 0 }
        400 5 1500 (some 0) (some 1) (some 2) (some 3) (some 4)).1.frame = (1 + 1) % 4 ∧
      (anime_logic
        { animating := true, frame := 1, start_time := 1000, last_frame := 1000, cycle_count := 0 }
        400 5 1500 (some 0) (some 1) (some 2) (some 3) (some 4)).2
        = draw_if ([some 0, some 1, some 2, some 3].getD
            (anime_logic
        { animating := true, frame := 1, start_time := 1000, last_frame := 1000, cycle_count := 0 }
        400 5 1500 (some 0) (some 1) (some 2) (some 3) (some 4)).1.frame none) false) ∧
    (∀ clocks,
      (∀ x ∈ anime_calls
        { animating := true, frame := 1, start_time := 1000, last_frame := 1000, cycle_count := 0 }
        400 5 (some 0) (some 1) (some 2) (some 3) (some 4) clocks, x.1.animating = true) →
      (last_state
        { animating := true, frame := 1, start_time := 1000, last_frame := 1000, cycle_count := 0 }
        (anime_calls
        { animating := true, frame := 1, start_time := 1000, last_frame := 1000, cycle_count := 0 }
        400 5 (some 0) (some 1) (some 2) (some 3) (some 4) clocks)).frame
        = (1 + frame_advances
        { animating := true, frame := 1, start_time := 1000, last_frame := 1000, cycle_count := 0 }
        (anime_calls
        { animating := true, frame := 1, start_time := 1000, last_frame := 1000, cycle_count := 0 }
        400 5 (some 0) (some 1) (some 2) (some 3) (some 4) clocks)) % 4 ∧
      ∀ x ∈ anime_calls
        { animating := true, frame := 1, start_time := 1000, last_frame := 1000, cycle_count := 0 }
        400 5 (some 0) (some 1) (some 2) (some 3) (some 4) clocks, x.1.frame < 4)) :=
  anime_logic_frame_cycle
    { animating := true, frame := 1, start_time := 1000, last_frame := 1000, cycle_count := 0 }
    400 5 1500 (some (0 : Nat)) (some 1) (some 2) (some 3) (some 4) rfl (by decide) (by decide)
    (by decide)

/-! ### Divisors -/

/-- C31: for every converted cycle value (so for every `mouth_speed` for which the cycle
is computed) and every random value, the divisors `open_duration / 5` and
`closed_duration / 5` of the jitter are at least 18 and 12, and the 32-bit expression
`d + rand() % (d / 5) - d / 10` neither overflows nor underflows: it is the exact
value, for the open and for the closed duration. -/
theorem jitter_divisors_positive (raw r : Nat) :
    18 ≤ cycle_clamp raw * 6 / 10 / 5 ∧ 12 ≤ cycle_clamp raw * 4 / 10 / 5 ∧
    cycle_clamp raw * 6 / 10 + r % (cycle_clamp raw * 6 / 10 / 5) < U32 ∧
    cycle_clamp raw * 6 / 10 / 10
      ≤ cycle_clamp raw * 6 / 10 + r % (cycle_clamp raw * 6 / 10 / 5) ∧
    jitter (cycle_clamp raw * 6 / 10) r
      = cycle_clamp raw * 6 / 10 + r % (cycle_clamp raw * 6 / 10 / 5)
          - cycle_clamp raw * 6 / 10 / 10 ∧
    cycle_clamp raw * 4 / 10 + r % (cycle_clamp raw * 4 / 10 / 5) < U32 ∧
    cycle_clamp raw * 4 / 10 / 10
      ≤ cycle_clamp raw * 4 / 10 + r % (cycle_clamp raw * 4 / 10 / 5) ∧
    jitter (cycle_clamp raw * 4 / 10) r
      = cycle_clamp raw * 4 / 10 + r % (cycle_clamp raw * 4 / 10 / 5)
          - cycle_clamp raw * 4 / 10 / 10 := by
  have hU : U32 = 4294967296 := rfl
  obtain ⟨a, b, c, d⟩ := open_closed_range raw
  obtain ⟨a1, -, -⟩ := jitter_bounds (cycle_clamp raw * 6 / 10) r (by omega) b
  obtain ⟨b1, -, -⟩ := jitter_bounds (cycle_clamp raw * 4 / 10) r (by omega) (by omega)
  have m1 : r % (cycle_clamp raw * 6 / 10 / 5) < cycle_clamp raw * 6 / 10 / 5 :=
    Nat.mod_lt _ (by omega)
  have m2 : r % (cycle_clamp raw * 4 / 10 / 5) < cycle_clamp raw * 4 / 10 / 5 :=
    Nat.mod_lt _ (by omega)
  refine ⟨by omega, by omega, by omega, by omega, a1, by omega, by omega, b1⟩

/-- C32 (the code departs from the claim): for the `double` speed 2147483.6484375 the
product `speed * 1000` is 2147483648.4375, the conversion gives `2^31`, and
`frame_duration * 2` is 0 in 32 bits. With `duration = 4294967` the call at `2^31` ms
after the start takes the branch that divides by it: the frame changes to 1, and the
divisor of `cycle_count` is 0. For a 32-bit frame time the divisor is 0 exactly at
`2^31`. -/
theorem anime_logic_divisor_zero :
    speed_to_ms { man := 274877907, exp := -7 } = some 2147483648 ∧
    u32_mul (if 2147483648 < 100 then 100 else 2147483648) 2 = 0 ∧
    anime_calls get_anim_state 2147483648 4294967
        (some 0) (some 1) (some 2) (some 3) (some 4) [0, 2147483648]
      = [({ animating := true, frame := 0, start_time := 0, last_frame := 0,
            cycle_count := 0 }, [{ matrix := 0, force_redraw := true }]),
         ({ animating := true, frame := 1, start_time := 0, last_frame := 2147483648,
            cycle_count := 0 }, [{ matrix := 1, force_redraw := false }])] ∧
    ∀ speed_ms, speed_ms < U32 →
      (u32_mul (if speed_ms < 100 then 100 else speed_ms) 2 = 0 ↔ speed_ms = 2147483648) := by
  refine ⟨by decide, by decide, by decide, fun speed_ms h => ?_⟩
  have hU : U32 = 4294967296 := rfl
  unfold u32_mul
  rw [hU] at h ⊢
  split_ifs with hlt
  · constructor
    · intro hf
      exact hf.elim
    · intro he
      omega
  · omega

/-! ### RenderDiff: the surface -/

/-- The surface after the cell rectangles that one pass over a list of cells issues: a
cell of the list that gets a rectangle shows its colour, every other cell is unchanged. -/
theorem paint_all_cells (ps : Int) (f : Fin 12 × Fin 12 → Option Color)
    (g : Fin 12 × Fin 12 → Option DisplayOp)
    (hg : ∀ rc, g rc = (f rc).map (fun color => DisplayOp.cell rc.1 rc.2 ps color)) :
    ∀ (cells : List (Fin 12 × Fin 12)) (surface : Surface) (r c : Fin 12),
      paint_all surface (cells.filterMap g) r c
        = if (r, c) ∈ cells then (f (r, c)).getD (surface r c) else surface r c := by
  intro cells
  induction cells with
  | nil =>
    intro surface r c
    simp [paint_all]
  | cons x cells ih =>
    intro surface r c
    cases hfx : f x with
    | none =>
      have hgx : g x = none := by rw [hg, hfx]; rfl
      rw [List.filterMap_cons_none hgx, ih]
      by_cases hx : (r, c) = x
      · subst hx
        simp [hfx]
      · simp [hx]
    | some color =>
      have hgx : g x = some (DisplayOp.cell x.1 x.2 ps color) := by rw [hg, hfx]; rfl
      rw [List.filterMap_cons_some hgx]
      have hfold : paint_all surface (DisplayOp.cell x.1 x.2 ps color :: cells.filterMap g)
          = paint_all (paint surface (DisplayOp.cell x.1 x.2 ps color)) (cells.filterMap g) :=
        rfl
      rw [hfold, ih]
      by_cases hx : (r, c) = x
      · subst hx
        have hp : paint surface (DisplayOp.cell r c ps color) r c = color := by
          simp [paint]
        simp [hfx, hp]
      · have hp : paint surface (DisplayOp.cell x.1 x.2 ps color) r c = surface r c := by
          have hne : ¬ (r = x.1 ∧ c = x.2) := by
            rintro ⟨h1, h2⟩
            exact hx (by rw [h1, h2])
          simp only [paint, if_neg hne]
        rw [hp]
        simp [hx]

/-- The full repaint leaves the surface of the grid, whatever was shown before. -/
theorem full_repaint_surface (surface : Surface) (matrix : Matrix) (ps : Int) :
    paint_all surface (.fill .STYLE_BG ::
      matrix_cells.filterMap (fun rc =>
        if matrix rc.1 rc.2 = 1 then some (.cell rc.1 rc.2 ps .STYLE_FACE) else none))
      = surface_of matrix := by
  funext r c
  have hfold : paint_all surface (.fill .STYLE_BG ::
      matrix_cells.filterMap (fun rc =>
        if matrix rc.1 rc.2 = 1 then some (.cell rc.1 rc.2 ps .STYLE_FACE) else none))
      = paint_all (paint surface (.fill .STYLE_BG))
          (matrix_cells.filterMap (fun rc =>
            if matrix rc.1 rc.2 = 1 then some (.cell rc.1 rc.2 ps .STYLE_FACE) else none)) :=
    rfl
  rw [hfold, paint_all_cells ps
    (fun rc => if matrix rc.1 rc.2 = 1 then some Color.STYLE_FACE else none) _
    (fun rc => by dsimp only; split_ifs <;> rfl)]
  rw [if_pos (mem_matrix_cells (r, c))]
  unfold surface_of
  dsimp only
  split_ifs <;> rfl

/-- The incremental update turns the surface of the previous grid into the surface of
the new grid. -/
theorem diff_update_surface (prev matrix : Matrix) (ps : Int) :
    paint_all (surface_of prev)
      (matrix_cells.filterMap (fun rc =>
        if matrix rc.1 rc.2 ≠ prev rc.1 rc.2 then
          some (.cell rc.1 rc.2 ps
            (if matrix rc.1 rc.2 = 1 then .STYLE_FACE else .STYLE_BG))
        else none))
      = surface_of matrix := by
  funext r c
  rw [paint_all_cells ps
    (fun rc => if matrix rc.1 rc.2 ≠ prev rc.1 rc.2 then
      some (if matrix rc.1 rc.2 = 1 then Color.STYLE_FACE else Color.STYLE_BG) else none) _
    (fun rc => by dsimp only; split_ifs <;> rfl)]
  rw [if_pos (mem_matrix_cells (r, c))]
  unfold surface_of
  dsimp only
  by_cases hne : matrix r c ≠ prev r c
  · rw [if_pos hne]
    rfl
  · rw [if_neg hne]
    have he : matrix r c = prev r c := not_not.mp hne
    rw [he]
    rfl

/-- A call rejected by the rate limit returns the statics unchanged and issues no driver
call. -/
theorem draw_matrix_rejected (st : DrawState) (a : DrawArgs)
    (h : draw_accepted st a = false) : draw_matrix st a = (st, []) := by
  have hrej : a.force_redraw = false ∧
      u32_sub a.current_time st.last_draw_time < 1000 / ANIMATION_FPS := by
    simpa [draw_accepted] using h
  unfold draw_matrix
  rw [if_pos hrej]

/-- An accepted call on a surface that shows the previous grid (when there is one) leaves
the surface of the new grid, and the statics record the new grid. -/
theorem draw_matrix_accepted_surface (st : DrawState) (surface : Surface) (a : DrawArgs)
    (hacc : draw_accepted st a = true)
    (hinv : st.matrix_initialized = true → surface = surface_of st.prev_matrix) :
    paint_all surface (draw_matrix st a).2 = surface_of a.matrix ∧
      (draw_matrix st a).1.prev_matrix = a.matrix ∧
      (draw_matrix st a).1.matrix_initialized = true := by
  have hrej : ¬ (a.force_redraw = false ∧
      u32_sub a.current_time st.last_draw_time < 1000 / ANIMATION_FPS) := by
    intro h
    simp [draw_accepted, h.1, h.2] at hacc
  unfold draw_matrix
  rw [if_neg hrej]
  refine ⟨?_, rfl, rfl⟩
  dsimp only
  by_cases hfull : st.matrix_initialized = false ∨ a.force_redraw = true
  · rw [if_pos hfull]
    exact full_repaint_surface surface a.matrix a.pixel_size
  · rw [if_neg hfull]
    have hi : st.matrix_initialized = true := by
      cases hm : st.matrix_initialized with
      | false => exact absurd (Or.inl hm) hfull
      | true => rfl
    rw [hinv hi]
    exact diff_update_surface st.prev_matrix a.matrix a.pixel_size

/-- A forced call is accepted. -/
theorem draw_accepted_forced (st : DrawState) (a : DrawArgs) :
    draw_accepted st { a with force_redraw := true } = true := by
  simp [draw_accepted]

/-- In a run from statics that are not initialised, the surface shows the previous grid
as soon as a call was accepted. -/
theorem draw_surface_run_inv (calls : List DrawArgs) :
    ∀ p : DrawState × Surface,
      (p.1.matrix_initialized = true → p.2 = surface_of p.1.prev_matrix) →
      ((draw_surface_run p calls).1.matrix_initialized = true →
        (draw_surface_run p calls).2 = surface_of (draw_surface_run p calls).1.prev_matrix) := by
  induction calls with
  | nil => intro p h; exact h
  | cons a later ih =>
    intro p h
    have hstep : draw_surface_run p (a :: later) = draw_surface_run (draw_step p a) later :=
      rfl
    rw [hstep]
    apply ih
    cases hacc : draw_accepted p.1 a with
    | false =>
      have hr := draw_matrix_rejected p.1 a hacc
      unfold draw_step
      rw [hr]
      exact h
    | true =>
      obtain ⟨h1, h2, -⟩ := draw_matrix_accepted_surface p.1 p.2 a hacc h
      intro _
      unfold draw_step
      dsimp only
      rw [h1, h2]

/-- C33: in every run of `draw_matrix` calls with the cell size `PIXEL_SIZE` from the
uninitialised statics, whatever the surface showed at the start: after an accepted call
the surface shows foreground exactly at the cells whose value is 1 in the grid of the
call and background elsewhere, which is also what a forced full repaint of the same grid
leaves, and the snapshot is the grid; a rejected call changes neither the statics
(snapshot, `last_draw_time`, flag) nor the surface and issues no driver call; and a
non-forced call with the grid of the snapshot paints no cell. -/
theorem draw_matrix_surface_of_grid (s0 : Surface) (pre : List DrawArgs) (a : DrawArgs)
    (_hp : ∀ x ∈ pre ++ [a], x.pixel_size = PIXEL_SIZE) :
    (draw_accepted (draw_surface_run (draw_init, s0) pre).1 a = true →
      (draw_step (draw_surface_run (draw_init, s0) pre) a).2 = surface_of (a).matrix ∧
      (draw_step (draw_surface_run (draw_init, s0) pre) a).2
        = paint_all (draw_surface_run (draw_init, s0) pre).2
            (draw_matrix (draw_surface_run (draw_init, s0) pre).1
              { a with force_redraw := true }).2 ∧
      (draw_step (draw_surface_run (draw_init, s0) pre) a).1.prev_matrix = (a).matrix) ∧
    (draw_accepted (draw_surface_run (draw_init, s0) pre).1 a = false →
      draw_step (draw_surface_run (draw_init, s0) pre) a = (draw_surface_run (draw_init, s0) pre) ∧
      (draw_matrix (draw_surface_run (draw_init, s0) pre).1 a).2 = []) ∧
    ((draw_surface_run (draw_init, s0) pre).1.matrix_initialized = true → (a).force_redraw = false →
      (a).matrix = (draw_surface_run (draw_init, s0) pre).1.prev_matrix →
      (draw_matrix (draw_surface_run (draw_init, s0) pre).1 a).2 = []) := by
  have hinv := draw_surface_run_inv pre (draw_init, s0) (fun h => by cases h)
  generalize draw_surface_run (draw_init, s0) pre = p at hinv
  refine ⟨fun hacc => ?_, fun hrej => ?_, fun hi hf hm => ?_⟩
  · obtain ⟨h1, h2, -⟩ := draw_matrix_accepted_surface p.1 p.2 a hacc hinv
    obtain ⟨h3, -, -⟩ := draw_matrix_accepted_surface p.1 p.2 { a with force_redraw := true }
      (draw_accepted_forced p.1 a) hinv
    refine ⟨h1, ?_, h2⟩
    unfold draw_step
    dsimp only
    rw [h1, h3]
  · have hr := draw_matrix_rejected p.1 a hrej
    unfold draw_step
    rw [hr]
    exact ⟨rfl, rfl⟩
  · unfold draw_matrix
    split_ifs with h1 h2
    · rfl
    · rcases h2 with h2 | h2
      · rw [hi] at h2; cases h2
      · rw [hf] at h2; cases h2
    · dsimp only
      rw [List.filterMap_eq_nil_iff]
      intro rc _
      rw [hm]
      simp

/-- C33 at the run of the diagonal bitmap at 100 ms followed by the empty bitmap at
200 ms, both not forced, on a surface that shows background at the start. -/
theorem draw_matrix_surface_of_grid_witness :
    (draw_accepted (draw_surface_run (draw_init, fun _ _ => Color.STYLE_BG) [sample_draw]).1 sample_clear = true →
      (draw_step (draw_surface_run (draw_init, fun _ _ => Color.STYLE_BG) [sample_draw]) sample_clear).2 = surface_of (sample_clear).matrix ∧
      (draw_step (draw_surface_run (draw_init, fun _ _ => Color.STYLE_BG) [sample_draw]) sample_clear).2
        = paint_all (draw_surface_run (draw_init, fun _ _ => Color.STYLE_BG) [sample_draw]).2
            (draw_matrix (draw_surface_run (draw_init, fun _ _ => Color.STYLE_BG) [sample_draw]).1
              { sample_clear with force_redraw := true }).2 ∧
      (draw_step (draw_surface_run (draw_init, fun _ _ => Color.STYLE_BG) [sample_draw]) sample_clear).1.prev_matrix = (sample_clear).matrix) ∧
    (draw_accepted (draw_surface_run (draw_init, fun _ _ => Color.STYLE_BG) [sample_draw]).1 sample_clear = false →
      draw_step (draw_surface_run (draw_init, fun _ _ => Color.STYLE_BG) [sample_draw]) sample_clear = (draw_surface_run (draw_init, fun _ _ => Color.STYLE_BG) [sample_draw]) ∧
      (draw_matrix (draw_surface_run (draw_init, fun _ _ => Color.STYLE_BG) [sample_draw]).1 sample_clear).2 = []) ∧
    ((draw_surface_run (draw_init, fun _ _ => Color.STYLE_BG) [sample_draw]).1.matrix_initialized = true → (sample_clear).force_redraw = false →
      (sample_clear).matrix = (draw_surface_run (draw_init, fun _ _ => Color.STYLE_BG) [sample_draw]).1.prev_matrix →
      (draw_matrix (draw_surface_run (draw_init, fun _ _ => Color.STYLE_BG) [sample_draw]).1 sample_clear).2 = []) :=
  draw_matrix_surface_of_grid (fun _ _ => Color.STYLE_BG) [sample_draw] sample_clear
    (by
      intro x hx
      simp only [List.cons_append, List.nil_append, List.mem_cons, List.mem_singleton,
        List.not_mem_nil, or_false] at hx
      rcases hx with rfl | rfl <;> rfl)

end PicoRobot
